import Mathlib

/-
Verification of the synchronization engine of the AWS S3 mirror/backup tool
(source: aws_ui.py).  The engine's two background loops, `s3_monitor_thread`
and `s3_backup_thread`, are shallowly embedded below: Python dicts become
association lists, the S3 paginator becomes a list of pages each of which is
either a listing error or a list of object records, `download_file` attempts
become an environment function from attempt index to an outcome, and the
local directory tree becomes a finite map from path strings to file contents.
-/

namespace AwsSync

/-! ## Association-list maps (embedding of Python dict operations) -/
/-- Lookup in an association list keyed by strings; embeds Python `d.get(k)` /
`d[k]` together with `k in d`. -/
def mapFind {α : Type} : List (String × α) → String → Option α
  | [], _ => none
  | (k', v) :: rest, k => if k' = k then some v else mapFind rest k

/-- Insertion that overwrites an existing binding in place, embedding the
Python assignment `d[k] = v`. -/
def mapInsert {α : Type} : List (String × α) → String → α → List (String × α)
  | [], k, v => [(k, v)]
  | (k', v') :: rest, k, v =>
    if k' = k then (k, v) :: rest else (k', v') :: mapInsert rest k v

/-- Removal of a binding, used only to embed the source half of `os.rename`. -/
def mapErase {α : Type} : List (String × α) → String → List (String × α)
  | [], _ => []
  | (k', v') :: rest, k =>
    if k' = k then mapErase rest k else (k', v') :: mapErase rest k

/-! ## Data model

`RemoteObjectRecord` is one entry of an S3 `list_objects_v2` page: the code
reads `obj['Key']`, `obj['LastModified']`, `obj.get('Size', 0)` and
`obj.get('ETag', '').strip('"')`.  Timestamps and etags are opaque values
compared only for equality, so they are embedded as strings. -/
/-- A Python timestamp value.  `boto3` delivers `obj['LastModified']` as a
`datetime.datetime` object, while a timestamp read back from the JSON
metadata file is a plain string; Python `==` between a datetime and a string
is always false, which the constructor distinction reproduces, so equality of
this type is exactly Python `==` on these values. -/
inductive PyTime where
  | dt (t : String)
  | str (t : String)
deriving DecidableEq, Repr

structure RemoteObj where
  key : String
  lastModified : PyTime
  size : Nat
  etag : String
deriving DecidableEq, Repr

/-- A stored metadata entry for one key.  The source stores either a full dict
(`last_modified`, `etag`, `size`, `hash`, `downloaded_at`/`backed_up_at`, and
in backup mode `backup_count`) or, in the legacy persisted format, a bare
timestamp; the code probes this with `isinstance(stored_info, dict)`.
`recordedAt` stands for `downloaded_at` (monitor) / `backed_up_at` (backup),
and `cycleNum` for backup mode's `backup_count` (absent in monitor mode). -/
inductive StoredInfo where
  | legacy (lastModified : PyTime)
  | full (lastModified : PyTime) (etag : String) (size : Nat)
      (contentHash : Option String) (recordedAt : String) (cycleNum : Option Nat)
deriving DecidableEq, Repr

inductive Classification where
  | New
  | Modified
  | Unchanged
deriving DecidableEq, Repr

/-! ## Change detection (aws_ui.py lines 136-152 and 285-302) -/
/-- Monitor-thread change detection, aws_ui.py lines 136-152: the pair
(`file_changed`, `reason`).  A missing entry marks the file new; a dict entry
is compared with `stored_info.get('last_modified') != last_modified or
stored_info.get('etag') != etag`; a legacy bare timestamp is compared with
`stored_info != last_modified`. -/
def monitorDetect (stored : Option StoredInfo) (r : RemoteObj) : Bool × Option String :=
  match stored with
  | none => (true, some "new file")
  | some (StoredInfo.legacy lm) =>
    if lm != r.lastModified then (true, some "file modified (legacy check)")
    else (false, none)
  | some (StoredInfo.full lm et _ _ _ _) =>
    if lm != r.lastModified || et != r.etag then (true, some "file modified")
    else (false, none)

/-- Backup-thread change detection, aws_ui.py lines 285-302: the pair
(`needs_backup`, `backup_reason`).  `needs_backup` starts true and is cleared
when the dict entry has equal `last_modified` and equal `etag`, or when a
legacy bare timestamp equals `last_modified`. -/
def backupDetect (stored : Option StoredInfo) (r : RemoteObj) : Bool × String :=
  match stored with
  | none => (true, "new file")
  | some (StoredInfo.legacy lm) =>
    if lm == r.lastModified then (false, "new file") else (true, "file modified (legacy)")
  | some (StoredInfo.full lm et _ _ _ _) =>
    if lm == r.lastModified && et == r.etag then (false, "new file")
    else (true, "file modified")

/-- Modelled from the spec's classification rule (section 4.2 of the spec,
quoted by claim C1): New if no stored entry exists; for a structured entry,
Modified iff `last_modified` differs or `etag` differs (logical OR), else
Unchanged; a legacy bare-timestamp entry is compared on the timestamp alone. -/
def specClassify (stored : Option StoredInfo) (r : RemoteObj) : Classification :=
  match stored with
  | none => Classification.New
  | some (StoredInfo.legacy lm) =>
    if lm ≠ r.lastModified then Classification.Modified else Classification.Unchanged
  | some (StoredInfo.full lm et _ _ _ _) =>
    if lm ≠ r.lastModified ∨ et ≠ r.etag then Classification.Modified
    else Classification.Unchanged

/-! ## Paths and the local directory tree

The local directory tree is a finite map from path strings to file contents;
`s3_client.download_file(bucket, key, local_path)` becomes an insertion at
`local_path` and `os.rename` becomes erase-then-insert. -/
/-- The local file system: a finite map from path to file content. -/
abbrev Fs := List (String × String)

/-- Embeds `os.path.join(a, b)` for the relative second arguments the engine
produces. -/
def joinPath (a b : String) : String := a ++ "/" ++ b

/-- Embeds the source's relative-path computation
`key[len(prefix):] if key.startswith(prefix) else key`
(aws_ui.py lines 155 and 305), written on the character list so that it
computes by structural recursion. -/
def relPathOf (pfx key : String) : String :=
  if key.data.take pfx.data.length = pfx.data
  then String.mk (key.data.drop pfx.data.length)
  else key

/-- The destination path of a key: `os.path.join(local_folder, rel_path)`. -/
def localPathOf (localFolder pfx key : String) : String :=
  joinPath localFolder (relPathOf pfx key)

/-- Embeds `os.path.basename`: the part of the path after its last slash,
written on the character list so that it computes by structural recursion. -/
def baseName (s : String) : String :=
  String.mk ((s.data.reverse.takeWhile fun c => c != '/').reverse)

def fsFind (fs : Fs) (p : String) : Option String := mapFind fs p

def fsInsert (fs : Fs) (p c : String) : Fs := mapInsert fs p c

/-- Embeds `os.rename(src, dst)` on an existing source file: the content moves
to `dst` and disappears from `src`. -/
def fsMove (fs : Fs) (src dst : String) : Fs :=
  match mapFind fs src with
  | some c => mapInsert (mapErase fs src) dst c
  | none => fs

/-! ## Download attempts and the per-object retry loop
(aws_ui.py lines 162-196 and 325-362) -/
/-- The outcome the environment supplies for one `s3_client.download_file`
attempt: the call either raises with some error message, or writes a file of
the given size and content to the destination path. -/
inductive AttemptOutcome where
  | raises (err : String)
  | writes (size : Nat) (content : String)
deriving DecidableEq, Repr

/-- An attempt fails when the download raises or when
`validate_file_integrity` finds the written size different from the object's
reported size (aws_ui.py lines 80-88 and 169, 334). -/
def attemptFails (o : AttemptOutcome) (expected : Nat) : Bool :=
  match o with
  | AttemptOutcome.raises _ => true
  | AttemptOutcome.writes s _ => s != expected

/-- The error a failing attempt surfaces: the raised error, or the
`Exception("File integrity check failed")` raised on a size mismatch
(aws_ui.py lines 191 and 356). -/
def attemptErrMsg (o : AttemptOutcome) : String :=
  match o with
  | AttemptOutcome.raises e => e
  | AttemptOutcome.writes _ _ => "File integrity check failed"

/-- The result of running the retry loop for one object: on success the
content that was verified and left at the destination, the number of attempts
consumed, the `time.sleep(2 ** attempt)` delays performed between attempts,
and on exhaustion the last error (re-raised by `raise download_error` on the
final attempt). -/
structure RetryResult where
  success : Option String
  attemptsMade : Nat
  delays : List Nat
  lastError : Option String
deriving DecidableEq, Repr

/-- The retry loop `for attempt in range(max_retries)` of aws_ui.py lines
163-196 (monitor) and 326-362 (backup), parameterised by the remaining fuel:
each attempt downloads to `path` (a failed integrity check still leaves the
written file on disk), a successful size check commits, a failure on the last
attempt re-raises, and otherwise the loop sleeps `2 ^ attempt` and retries. -/
def retryGo (outF : Nat → AttemptOutcome) (expected : Nat) (path : String) :
    Nat → Nat → Fs → Fs × RetryResult
  | _, 0, fs => (fs, ⟨none, 0, [], none⟩)
  | attempt, fuel + 1, fs =>
    match outF attempt with
    | AttemptOutcome.raises e =>
      if fuel = 0 then (fs, ⟨none, attempt + 1, [], some e⟩)
      else
        let r := retryGo outF expected path (attempt + 1) fuel fs
        (r.1, ⟨r.2.success, r.2.attemptsMade, 2 ^ attempt :: r.2.delays, r.2.lastError⟩)
    | AttemptOutcome.writes s c =>
      let fs1 := fsInsert fs path c
      if s = expected then (fs1, ⟨some c, attempt + 1, [], none⟩)
      else if fuel = 0 then
        (fs1, ⟨none, attempt + 1, [], some "File integrity check failed"⟩)
      else
        let r := retryGo outF expected path (attempt + 1) fuel fs1
        (r.1, ⟨r.2.success, r.2.attemptsMade, 2 ^ attempt :: r.2.delays, r.2.lastError⟩)

/-- The full retry loop with the source's `max_retries = 3`. -/
def retryRun (outF : Nat → AttemptOutcome) (expected : Nat) (path : String) (fs : Fs) :
    Fs × RetryResult :=
  retryGo outF expected path 0 3 fs

/-- The exponential-backoff delay sequence 2 ^ start, 2 ^ (start + 1), and so
on, used to describe the sleeps of the retry loop. -/
def powDelays (start : Nat) : Nat → List Nat
  | 0 => []
  | n + 1 => 2 ^ start :: powDelays (start + 1) n

/-! ## Metadata persistence (aws_ui.py lines 53-78)

`save_backup_metadata` writes the dict
`{'bucket', 'prefix', 'last_backup': datetime.now().isoformat(), 'files'}`
with `json.dump`; `load_backup_metadata` reads it back with `json.load` and
returns the empty dict when the file is absent or unreadable.  The values
inside a stored entry are embedded as `PyScalar`, which records the one fact
about them that `json.dump` depends on: a `datetime` object is not JSON
serializable (`json.dump` raises `TypeError` on it), everything else the
engine stores is. -/
inductive PyScalar where
  | pstr (s : String)
  | pint (n : Int)
  | pnone
  | pdatetime (t : String)
deriving DecidableEq, Repr

def PyScalar.serializable : PyScalar → Bool
  | PyScalar.pdatetime _ => false
  | _ => true

/-- One value of the `files` dict: either a bare scalar (the legacy format)
or a dict of scalar fields (the format both threads write). -/
inductive PyEntry where
  | scalar (v : PyScalar)
  | pdict (fields : List (String × PyScalar))
deriving DecidableEq, Repr

def PyEntry.serializable : PyEntry → Bool
  | PyEntry.scalar v => v.serializable
  | PyEntry.pdict fields => fields.all fun p => p.2.serializable

/-- The Python value a `PyTime` is: a datetime object or a string. -/
def PyTime.toPy : PyTime → PyScalar
  | PyTime.dt t => PyScalar.pdatetime t
  | PyTime.str t => PyScalar.pstr t

/-- The dict (or bare value) held in `st.session_state[last_key][key]` /
`backup_history[key]`, as the threads build it (aws_ui.py lines 174-180 and
339-346).  `recorded_at` stands for the `downloaded_at` / `backed_up_at`
key and `cycle_number` for backup mode's `backup_count`; the key names do not
affect serializability.  The timestamps `downloaded_at` / `backed_up_at` are
already converted with `.isoformat()` in the source, but `last_modified` is
stored as the raw value from the listing. -/
def StoredInfo.toPy : StoredInfo → PyEntry
  | StoredInfo.legacy lm => PyEntry.scalar lm.toPy
  | StoredInfo.full lm et sz ch t cn =>
    PyEntry.pdict
      [("last_modified", lm.toPy),
       ("etag", PyScalar.pstr et),
       ("size", PyScalar.pint (Int.ofNat sz)),
       ("hash", match ch with
                | some x => PyScalar.pstr x
                | none => PyScalar.pnone),
       ("recorded_at", PyScalar.pstr t),
       ("cycle_number", match cn with
                        | some n => PyScalar.pint (Int.ofNat n)
                        | none => PyScalar.pnone)]

def filesToPy (m : List (String × StoredInfo)) : List (String × PyEntry) :=
  m.map fun p => (p.1, p.2.toPy)

/-- The JSON metadata document `.backup_metadata.json` as the source builds
it (aws_ui.py lines 56-61): bucket, prefix, `last_backup` (an isoformat
string), and the `files` mapping. -/
structure MetaDoc where
  bucket : String
  pfx : String
  lastBackup : String
  files : List (String × PyEntry)
deriving DecidableEq, Repr

/-- Whether `json.dump` accepts the document: the top-level strings always
serialize, so only the entry values decide it. -/
def docSerializable (d : MetaDoc) : Bool :=
  d.files.all fun p => p.2.serializable

/-- Embeds `save_backup_metadata` (aws_ui.py lines 53-67).  The file is
opened with mode `'w'` (truncating it) and then `json.dump` streams the
document: if every value serializes the new document is on disk; otherwise
`json.dump` raises `TypeError` mid-write, the `except` branch logs
`Error saving metadata` and the truncated, partially-written file is left
corrupt.  The result is the disk content after the call (`none` = absent or
corrupt) paired with whether the error branch ran. -/
def saveBackupMetadata (d : MetaDoc) : Option MetaDoc × Bool :=
  if docSerializable d then (some d, false) else (none, true)

/-- Embeds `load_backup_metadata` (aws_ui.py lines 69-78) composed with the
callers' extraction of `metadata['files']`: an absent or corrupt file gives
the empty dict, hence no files. -/
def loadBackupMetadata (disk : Option MetaDoc) : List (String × PyEntry) :=
  match disk with
  | some d => d.files
  | none => []

/-! ## The monitor cycle (aws_ui.py lines 91-222)

One iteration of the `while not stop_event.is_set()` loop of
`s3_monitor_thread`.  The network is an environment: the paginator is a list
of pages, each either a listing error (an exception raised while iterating
`page_iterator`) or a list of object records, and each key's download
attempts are a function from attempt index to an outcome. -/
/-- The environment one cycle runs against. -/
structure CycleEnv where
  pages : List (Except String (List RemoteObj))
  outcomes : String → Nat → AttemptOutcome
  hashOf : String → Option String
  now : String
  stamp : String
  renameFails : String → Bool

/-- All objects the paginator yields before the first page error. -/
def listedObjs : List (Except String (List RemoteObj)) → List RemoteObj
  | [] => []
  | Except.error _ :: _ => []
  | Except.ok objs :: rest => objs ++ listedObjs rest

/-- Whether every page of the listing arrives without error. -/
def noPageError (ps : List (Except String (List RemoteObj))) : Bool :=
  ps.all fun p => match p with
    | Except.ok _ => true
    | Except.error _ => false

/-- Iterating the paginator: pages are processed in order by folding `f` over
their objects; a page error aborts the iteration and is reported. -/
def runPages {σ : Type} (f : σ → RemoteObj → σ) :
    σ → List (Except String (List RemoteObj)) → σ × Option String
  | s, [] => (s, none)
  | s, Except.error e :: _ => (s, some e)
  | s, Except.ok objs :: rest => runPages f (objs.foldl f s) rest

/-- In-cycle accumulator of the monitor pass: the directory tree, the
in-memory metadata dict `st.session_state[last_key]`, the `files_checked`
and `files_downloaded` counters, the `errors` statistic, and the per-object
failure log lines `Failed to download key: error`. -/
structure MonAcc where
  fs : Fs
  last : List (String × StoredInfo)
  checked : Nat
  downloaded : Nat
  errors : Nat
  failLog : List (String × String)
deriving DecidableEq, Repr

/-- Processing of one listed object by the monitor thread (aws_ui.py lines
121-200): count it, classify it, and if changed run the retry loop; a
verified download commits the enhanced metadata entry, and exhaustion of the
retries surfaces the last error as a logged, counted per-object failure. -/
def monitorProcessObj (localFolder pfx : String) (env : CycleEnv)
    (acc : MonAcc) (obj : RemoteObj) : MonAcc :=
  let acc1 : MonAcc := { acc with checked := acc.checked + 1 }
  if (monitorDetect (mapFind acc1.last obj.key) obj).1 = true then
    let lp := localPathOf localFolder pfx obj.key
    let rr := retryRun (env.outcomes obj.key) obj.size lp acc1.fs
    match rr.2.success with
    | some c =>
      { acc1 with
        fs := rr.1,
        last := mapInsert acc1.last obj.key
          (StoredInfo.full obj.lastModified obj.etag obj.size
            (env.hashOf c) env.now none),
        downloaded := acc1.downloaded + 1 }
    | none =>
      { acc1 with
        fs := rr.1,
        errors := acc1.errors + 1,
        failLog := (obj.key, rr.2.lastError.getD "") :: acc1.failLog }
  else acc1

/-- The loop-carried state of the monitor thread: directory tree, in-memory
metadata, the (mutable) polling interval, the consecutive-error counter and
the metadata file on disk. -/
structure MonitorState where
  fs : Fs
  last : List (String × StoredInfo)
  interval : Nat
  consecutiveErrors : Nat
  disk : Option MetaDoc
deriving DecidableEq, Repr

/-- What one monitor cycle produced, beyond the new state: whether
`save_backup_metadata` was reached, whether it left a readable document on
disk, the counters, the per-object failure log and the cycle-level error. -/
structure MonCycleResult where
  state : MonitorState
  saveCalled : Bool
  saved : Bool
  checked : Nat
  downloaded : Nat
  errors : Nat
  failLog : List (String × String)
  cycleError : Option String
deriving DecidableEq, Repr

/-- One iteration of the monitor loop (aws_ui.py lines 107-220).  The `try`
block begins by executing `consecutive_errors = 0` (line 110) and then
iterates the paginator; in-place mutations of the session dict survive a
mid-pass exception.  On a clean pass the thread stores the dict into
`backup_metadata` and calls `save_backup_metadata`; on a cycle-level
exception the `except` block increments the counter (necessarily from 0 to
1), logs, bumps the `errors` statistic, and doubles the interval capped at
300 only if the counter reached `max_errors = 5`. -/
def monitorCycle (bucket localFolder pfx : String) (st : MonitorState)
    (env : CycleEnv) : MonCycleResult :=
  let acc0 : MonAcc := ⟨st.fs, st.last, 0, 0, 0, []⟩
  let run := runPages (monitorProcessObj localFolder pfx env) acc0 env.pages
  let acc := run.1
  match run.2 with
  | none =>
    let doc : MetaDoc := ⟨bucket, pfx, env.now, filesToPy acc.last⟩
    let saveRes := saveBackupMetadata doc
    { state := ⟨acc.fs, acc.last, st.interval, 0, saveRes.1⟩,
      saveCalled := true,
      saved := saveRes.1.isSome,
      checked := acc.checked,
      downloaded := acc.downloaded,
      errors := acc.errors,
      failLog := acc.failLog,
      cycleError := none }
  | some e =>
    let ce := 0 + 1
    if 5 ≤ ce then
      { state := ⟨acc.fs, acc.last, min (st.interval * 2) 300, 0, st.disk⟩,
        saveCalled := false,
        saved := false,
        checked := acc.checked,
        downloaded := acc.downloaded,
        errors := acc.errors + 1,
        failLog := acc.failLog,
        cycleError := some e }
    else
      { state := ⟨acc.fs, acc.last, st.interval, ce, st.disk⟩,
        saveCalled := false,
        saved := false,
        checked := acc.checked,
        downloaded := acc.downloaded,
        errors := acc.errors + 1,
        failLog := acc.failLog,
        cycleError := some e }

/-! ## The backup cycle (aws_ui.py lines 224-408) -/
/-- The result of the versioning step for one object: the directory tree
after it, the archived path if a move happened, and whether an attempted
move failed (which the source logs as `Version backup failed for rel_path`
and then proceeds to the download anyway). -/
structure VersionOutcome where
  fs : Fs
  archived : Option String
  moveFailed : Bool
deriving DecidableEq, Repr

/-- The versioning step of aws_ui.py lines 308-319: when the destination file
already exists, it is renamed (moved, not copied) into the `.versions`
subdirectory under the name `basename(rel_path) + '_' + timestamp` where the
timestamp is `datetime.now().strftime('%Y%m%d_%H%M%S')`; a failing
`os.rename` is caught and only logged. -/
def versionExisting (localFolder relPath lp stamp : String) (renameFailed : Bool)
    (fs : Fs) : VersionOutcome :=
  match fsFind fs lp with
  | some _ =>
    let bp := joinPath (joinPath localFolder ".versions") (baseName relPath ++ "_" ++ stamp)
    if renameFailed then ⟨fs, none, true⟩
    else ⟨fsMove fs lp bp, some bp, false⟩
  | none => ⟨fs, none, false⟩

/-- In-cycle accumulator of the backup pass: the directory tree, the
`backup_history` dict, the `files_backed_up` and `files_skipped` counters,
the per-object-failure increments of `consecutive_errors` (line 369), the
count of objects whose download `try` block was entered, the archived paths
created by the versioning step, the relative paths whose versioning move
failed, and the per-object failure log lines. -/
structure BackupAcc where
  fs : Fs
  history : List (String × StoredInfo)
  backedUp : Nat
  skipped : Nat
  perObjErrors : Nat
  downloadsAttempted : Nat
  versioned : List String
  versionFailLog : List String
  failLog : List (String × String)
deriving DecidableEq, Repr

/-- Processing of one listed object by the backup thread (aws_ui.py lines
276-373): classify it; if it needs backup, first run the versioning step on
an existing destination file, then enter the download `try` block and run
the retry loop; a verified download commits the entry carrying the current
`backup_count`, exhaustion reaches the outer `except` which logs the failure
and increments `consecutive_errors`; an unchanged object is only counted as
skipped. -/
def backupProcessObj (localFolder pfx : String) (env : CycleEnv) (cycleNum : Nat)
    (acc : BackupAcc) (obj : RemoteObj) : BackupAcc :=
  if (backupDetect (mapFind acc.history obj.key) obj).1 = true then
    let relPath := relPathOf pfx obj.key
    let lp := joinPath localFolder relPath
    let ver := versionExisting localFolder relPath lp env.stamp
      (env.renameFails obj.key) acc.fs
    let acc1 : BackupAcc :=
      { acc with
        fs := ver.fs,
        versioned := match ver.archived with
                     | some bp => bp :: acc.versioned
                     | none => acc.versioned,
        versionFailLog := if ver.moveFailed then relPath :: acc.versionFailLog
                          else acc.versionFailLog,
        downloadsAttempted := acc.downloadsAttempted + 1 }
    let rr := retryRun (env.outcomes obj.key) obj.size lp acc1.fs
    match rr.2.success with
    | some c =>
      { acc1 with
        fs := rr.1,
        history := mapInsert acc1.history obj.key
          (StoredInfo.full obj.lastModified obj.etag obj.size
            (env.hashOf c) env.now (some cycleNum)),
        backedUp := acc1.backedUp + 1 }
    | none =>
      { acc1 with
        fs := rr.1,
        perObjErrors := acc1.perObjErrors + 1,
        failLog := (obj.key, rr.2.lastError.getD "") :: acc1.failLog }
  else { acc with skipped := acc.skipped + 1 }

/-- The loop-carried state of the backup thread. -/
structure BackupState where
  fs : Fs
  history : List (String × StoredInfo)
  interval : Nat
  consecutiveErrors : Nat
  disk : Option MetaDoc
  backupCount : Nat
deriving DecidableEq, Repr

/-- What one backup cycle produced beyond the new state. -/
structure BackupCycleResult where
  state : BackupState
  saveCalled : Bool
  saved : Bool
  backedUp : Nat
  skipped : Nat
  versioned : List String
  versionFailLog : List String
  failLog : List (String × String)
  cycleError : Option String
deriving DecidableEq, Repr

/-- One iteration of the backup loop (aws_ui.py lines 255-400).
`backup_count` is incremented at the top of the loop, before the `try`; the
`try` block then executes `consecutive_errors = 0` (line 264) and iterates
the paginator; per-object failures increment the counter during the pass.
On a clean pass the thread stores the history and calls
`save_backup_metadata`; on a cycle-level exception the `except` block
increments the counter once more and doubles the interval capped at 60 only
if the counter reached `max_errors = 3`. -/
def backupCycle (bucket localFolder pfx : String) (st : BackupState)
    (env : CycleEnv) : BackupCycleResult :=
  let cnum := st.backupCount + 1
  let acc0 : BackupAcc := ⟨st.fs, st.history, 0, 0, 0, 0, [], [], []⟩
  let run := runPages (backupProcessObj localFolder pfx env cnum) acc0 env.pages
  let acc := run.1
  match run.2 with
  | none =>
    let doc : MetaDoc := ⟨bucket, pfx, env.now, filesToPy acc.history⟩
    let saveRes := saveBackupMetadata doc
    { state := ⟨acc.fs, acc.history, st.interval, acc.perObjErrors, saveRes.1, cnum⟩,
      saveCalled := true,
      saved := saveRes.1.isSome,
      backedUp := acc.backedUp,
      skipped := acc.skipped,
      versioned := acc.versioned,
      versionFailLog := acc.versionFailLog,
      failLog := acc.failLog,
      cycleError := none }
  | some e =>
    let ce := acc.perObjErrors + 1
    if 3 ≤ ce then
      { state := ⟨acc.fs, acc.history, min (st.interval * 2) 60, 0, st.disk, cnum⟩,
        saveCalled := false,
        saved := false,
        backedUp := acc.backedUp,
        skipped := acc.skipped,
        versioned := acc.versioned,
        versionFailLog := acc.versionFailLog,
        failLog := acc.failLog,
        cycleError := some e }
    else
      { state := ⟨acc.fs, acc.history, st.interval, ce, st.disk, cnum⟩,
        saveCalled := false,
        saved := false,
        backedUp := acc.backedUp,
        skipped := acc.skipped,
        versioned := acc.versioned,
        versionFailLog := acc.versionFailLog,
        failLog := acc.failLog,
        cycleError := some e }

/-! ## The inter-cycle sleep (aws_ui.py lines 220 and 402-406)

The monitor thread sleeps with a single `time.sleep(interval)` and only then
re-tests `stop_event` in the `while` condition; the backup thread sleeps with
`for _ in range(interval * 60): if stop_event.is_set(): break;
time.sleep(1)`.  Each is described by the list of elapsed times (in seconds
from the start of the wait) at which the thread observes the stop signal. -/
/-- Elapsed times at which the monitor thread checks the stop signal during
one inter-cycle wait: only once, after the whole interval has passed. -/
def monitorSleepCheckTimes (interval : Nat) : List Nat := [interval]

/-- The list k, k+1, ..., k+n. -/
def countUp (k : Nat) : Nat → List Nat
  | 0 => [k]
  | n + 1 => k :: countUp (k + 1) n

/-- Elapsed times at which the backup thread checks the stop signal during
one inter-cycle wait: at the top of each of the `interval * 60` one-second
loop iterations, and in the `while` condition after the loop. -/
def backupSleepCheckTimes (interval : Nat) : List Nat := countUp 0 (interval * 60)

/-- The longest stretch of the wait, starting from `prev`, during which the
signal is not observed. -/
def maxGapFrom (prev : Nat) : List Nat → Nat
  | [] => 0
  | c :: rest => max (c - prev) (maxGapFrom c rest)

/-- The longest time the sleeping thread goes without checking the stop
signal, measured from the start of the wait. -/
def maxCheckGap (checks : List Nat) : Nat := maxGapFrom 0 checks

/-! ## Facts about one backup object step -/
/-- The versioning step the backup pass runs for `obj` (abbreviation of the
corresponding subterm of `backupProcessObj`). -/
def backupVersionStep (localFolder pfx : String) (env : CycleEnv)
    (acc : BackupAcc) (obj : RemoteObj) : VersionOutcome :=
  versionExisting localFolder (relPathOf pfx obj.key)
    (joinPath localFolder (relPathOf pfx obj.key)) env.stamp
    (env.renameFails obj.key) acc.fs

/-- The retry run the backup pass performs for `obj` (abbreviation of the
corresponding subterm of `backupProcessObj`). -/
def backupRetry (localFolder pfx : String) (env : CycleEnv)
    (acc : BackupAcc) (obj : RemoteObj) : Fs × RetryResult :=
  retryRun (env.outcomes obj.key) obj.size
    (joinPath localFolder (relPathOf pfx obj.key))
    (backupVersionStep localFolder pfx env acc obj).fs

/-! ## Concrete instances used by the claim theorems -/
/-- An environment whose listing raises on every cycle. -/
def c3FailEnv : CycleEnv :=
  { pages := [Except.error "listing failed"],
    outcomes := fun _ _ => AttemptOutcome.raises "unused",
    hashOf := fun _ => none,
    now := "2024-01-01T00:00:00",
    stamp := "20240101_000000",
    renameFails := fun _ => false }

def c3Start : MonitorState :=
  { fs := [], last := [], interval := 60, consecutiveErrors := 0, disk := none }

/-- The monitor state after n consecutive cycles whose listing raised. -/
def c3After : Nat → MonitorState
  | 0 => c3Start
  | n + 1 => (monitorCycle "bucket" "mirror" "" (c3After n) c3FailEnv).state

def c4Obj : RemoteObj :=
  { key := "a.txt", lastModified := PyTime.dt "2024-01-01T10:00:00",
    size := 3, etag := "etag1" }

def c4OkEnv : CycleEnv :=
  { pages := [Except.ok [c4Obj]],
    outcomes := fun _ _ => AttemptOutcome.writes 3 "abc",
    hashOf := fun _ => some "900150983cd24fb0",
    now := "2024-01-01T10:05:00",
    stamp := "20240101_100500",
    renameFails := fun _ => false }

def c4EmptyEnv : CycleEnv :=
  { pages := [Except.ok []],
    outcomes := fun _ _ => AttemptOutcome.raises "unused",
    hashOf := fun _ => none,
    now := "2024-01-01T10:05:00",
    stamp := "20240101_100500",
    renameFails := fun _ => false }

def c4Start : MonitorState :=
  { fs := [], last := [], interval := 60, consecutiveErrors := 0, disk := none }

def c5Entry : StoredInfo :=
  StoredInfo.full (PyTime.dt "2024-01-01T10:00:00") "etag1" 3
    (some "900150983cd24fb0") "2024-01-01T10:05:00" none

/-- The metadata document a monitor pass builds after downloading `a.txt`:
its `files` entry holds the raw datetime from the listing. -/
def c5Doc : MetaDoc :=
  { bucket := "bucket", pfx := "",
    lastBackup := "2024-01-01T10:05:00",
    files := filesToPy [("a.txt", c5Entry)] }

def c2wObj : RemoteObj :=
  { key := "k.txt", lastModified := PyTime.dt "t1", size := 5, etag := "e1" }

def c2wEnv : CycleEnv :=
  { pages := [],
    outcomes := fun _ _ => AttemptOutcome.raises "boom",
    hashOf := fun _ => none,
    now := "n",
    stamp := "s",
    renameFails := fun _ => false }

def c2wAcc : MonAcc := ⟨[], [], 0, 0, 0, []⟩

def c2wBacc : BackupAcc := ⟨[], [], 0, 0, 0, 0, [], [], []⟩

def c6wObj : RemoteObj :=
  { key := "k.txt", lastModified := PyTime.dt "t1", size := 5, etag := "e1" }

def c6wOut : Nat → AttemptOutcome := fun _ => AttemptOutcome.writes 4 "bad"

def c6wEnv : CycleEnv :=
  { pages := [Except.ok [c6wObj]],
    outcomes := fun _ _ => AttemptOutcome.writes 4 "bad",
    hashOf := fun _ => none,
    now := "n",
    stamp := "s",
    renameFails := fun _ => false }

def c6wSt : MonitorState :=
  { fs := [], last := [], interval := 60, consecutiveErrors := 0, disk := none }

/-! ## Claim C7 -/
/-- The number of files under the `.versions` archive subdirectory. -/
def versionsCount (localFolder : String) (fs : Fs) : Nat :=
  (fs.filter fun pr =>
    pr.1.data.take (joinPath localFolder ".versions" ++ "/").data.length =
      (joinPath localFolder ".versions" ++ "/").data).length

def c7Obj1 : RemoteObj :=
  { key := "f.txt", lastModified := PyTime.dt "t1", size := 2, etag := "e1" }

def c7Obj2 : RemoteObj :=
  { key := "f.txt", lastModified := PyTime.dt "t2", size := 3, etag := "e2" }

def c7Env1 : CycleEnv :=
  { pages := [Except.ok [c7Obj1]],
    outcomes := fun _ _ => AttemptOutcome.writes 2 "v1",
    hashOf := fun _ => some "h1",
    now := "n1",
    stamp := "20240101_000001",
    renameFails := fun _ => false }

def c7Env2 : CycleEnv :=
  { pages := [Except.ok [c7Obj2]],
    outcomes := fun _ _ => AttemptOutcome.writes 3 "v2",
    hashOf := fun _ => some "h2",
    now := "n2",
    stamp := "20240102_000002",
    renameFails := fun _ => false }

def c7St0 : BackupState :=
  { fs := [], history := [], interval := 10, consecutiveErrors := 0,
    disk := none, backupCount := 0 }

def c7St1 : BackupState := (backupCycle "bucket" "bk" "" c7St0 c7Env1).state

def c7Run2 : BackupCycleResult := backupCycle "bucket" "bk" "" c7St1 c7Env2

def c7wAcc : BackupAcc := ⟨[("bk/f.txt", "v1")], [], 0, 0, 0, 0, [], [], []⟩

def c7wEnvFail : CycleEnv :=
  { pages := [],
    outcomes := fun _ _ => AttemptOutcome.writes 3 "v2",
    hashOf := fun _ => some "h2",
    now := "n2",
    stamp := "20240102_000002",
    renameFails := fun _ => true }

def c9wObj : RemoteObj :=
  { key := "a.txt", lastModified := PyTime.dt "t1", size := 3, etag := "e1" }

def c9wEnv : CycleEnv :=
  { pages := [Except.ok [c9wObj]],
    outcomes := fun _ _ => AttemptOutcome.writes 3 "abc",
    hashOf := fun _ => some "h",
    now := "n",
    stamp := "s",
    renameFails := fun _ => false }

def c9wSt : MonitorState :=
  { fs := [], last := [], interval := 60, consecutiveErrors := 0, disk := none }

def c9wBst : BackupState :=
  { fs := [], history := [], interval := 10, consecutiveErrors := 0,
    disk := none, backupCount := 0 }

/-- Whether a cycle over the listed objects may write or move the file at
`p`: either `p` is the destination path of a listed key, or `p` lies in the
`.versions` archive directory. -/
def touchedPath (localFolder pfx : String) (objs : List RemoteObj) (p : String) : Prop :=
  (∃ o, o ∈ objs ∧ p = joinPath localFolder (relPathOf pfx o.key)) ∨
  (∃ name, p = joinPath (joinPath localFolder ".versions") name)

def c10wObj : RemoteObj :=
  { key := "a.txt", lastModified := PyTime.dt "t1", size := 3, etag := "e1" }

def c10wEnv : CycleEnv :=
  { pages := [Except.ok [c10wObj]],
    outcomes := fun _ _ => AttemptOutcome.writes 3 "new",
    hashOf := fun _ => some "h",
    now := "n",
    stamp := "s",
    renameFails := fun _ => false }

def c10wMst : MonitorState :=
  { fs := [("mirror/old.txt", "keep")],
    last := [("gone.txt", StoredInfo.legacy (PyTime.dt "t0"))],
    interval := 60, consecutiveErrors := 0, disk := none }

def c10wBst : BackupState :=
  { fs := [("mirror/old.txt", "keep")],
    history := [("gone.txt", StoredInfo.legacy (PyTime.dt "t0"))],
    interval := 10, consecutiveErrors := 0, disk := none, backupCount := 0 }

theorem mapFind_insert_self {α : Type} (m : List (String × α)) (k : String) (v : α) :
    mapFind (mapInsert m k v) k = some v := by
  induction m with
  | nil => simp [mapInsert, mapFind]
  | cons p rest ih =>
    obtain ⟨k', v'⟩ := p
    by_cases h : k' = k
    · simp [mapInsert, h, mapFind]
    · simp [mapInsert, h, mapFind, ih]

theorem mapFind_insert_ne {α : Type} (m : List (String × α)) (k k' : String) (v : α)
    (h : k' ≠ k) : mapFind (mapInsert m k v) k' = mapFind m k' := by
  have h' : k ≠ k' := Ne.symm h
  induction m with
  | nil => simp [mapInsert, mapFind, h']
  | cons p rest ih =>
    obtain ⟨a, b⟩ := p
    by_cases ha : a = k
    · subst ha
      simp [mapInsert, mapFind, h']
    · simp [mapInsert, ha, mapFind, ih]

theorem mapFind_erase_ne {α : Type} (m : List (String × α)) (k k' : String)
    (h : k' ≠ k) : mapFind (mapErase m k) k' = mapFind m k' := by
  have h' : k ≠ k' := Ne.symm h
  induction m with
  | nil => simp [mapErase, mapFind]
  | cons p rest ih =>
    obtain ⟨a, b⟩ := p
    by_cases ha : a = k
    · subst ha
      simp [mapErase, mapFind, h', ih]
    · simp [mapErase, ha, mapFind, ih]

theorem mapFind_erase_self {α : Type} (m : List (String × α)) (k : String) :
    mapFind (mapErase m k) k = none := by
  induction m with
  | nil => simp [mapErase, mapFind]
  | cons p rest ih =>
    obtain ⟨a, b⟩ := p
    by_cases ha : a = k
    · simp [mapErase, ha, ih]
    · simp [mapErase, ha, mapFind, ih]

theorem mapFind_insert_isSome {α : Type} (m : List (String × α)) (k k' : String) (v : α)
    (h : (mapFind m k').isSome) : (mapFind (mapInsert m k v) k').isSome := by
  by_cases he : k' = k
  · subst he; simp [mapFind_insert_self]
  · rwa [mapFind_insert_ne m k k' v he]

/-- C1: for every listed key and stored state, both threads' change detection
agrees with the spec rule: New iff no stored entry; a structured entry is
Modified iff last_modified differs or etag differs (logical OR), Unchanged
otherwise; a legacy bare-timestamp entry is compared on timestamp alone. -/
theorem c1_change_classification (stored : Option StoredInfo) (r : RemoteObj) :
    (specClassify stored r = Classification.New ↔ stored = none) ∧
    ((monitorDetect stored r).1 = true ↔ specClassify stored r ≠ Classification.Unchanged) ∧
    ((backupDetect stored r).1 = true ↔ specClassify stored r ≠ Classification.Unchanged) ∧
    (∀ lm, stored = some (StoredInfo.legacy lm) →
      (specClassify stored r = Classification.Modified ↔ lm ≠ r.lastModified)) ∧
    (∀ lm et sz ch t cn, stored = some (StoredInfo.full lm et sz ch t cn) →
      (specClassify stored r = Classification.Modified ↔ (lm ≠ r.lastModified ∨ et ≠ r.etag))) := by
  obtain _ | info := stored
  · simp [specClassify, monitorDetect, backupDetect]
  · cases info with
    | legacy lm =>
      by_cases h : lm = r.lastModified <;>
        simp [specClassify, monitorDetect, backupDetect, h]
    | full lm et sz ch t cn =>
      by_cases h1 : lm = r.lastModified <;> by_cases h2 : et = r.etag <;>
        simp [specClassify, monitorDetect, backupDetect, h1, h2] <;>
        intros <;> simp_all

theorem retryGo_zero (outF : Nat → AttemptOutcome) (expected : Nat) (path : String)
    (attempt : Nat) (fs : Fs) :
    retryGo outF expected path attempt 0 fs = (fs, ⟨none, 0, [], none⟩) := rfl

theorem retryGo_raises_last (outF : Nat → AttemptOutcome) (expected : Nat) (path : String)
    (attempt : Nat) (fs : Fs) (e : String) (ho : outF attempt = AttemptOutcome.raises e) :
    retryGo outF expected path attempt 1 fs = (fs, ⟨none, attempt + 1, [], some e⟩) := by
  conv_lhs => unfold retryGo
  rw [ho]
  simp

theorem retryGo_raises_cont (outF : Nat → AttemptOutcome) (expected : Nat) (path : String)
    (attempt n : Nat) (fs : Fs) (e : String)
    (ho : outF attempt = AttemptOutcome.raises e) (hn : n ≠ 0) :
    retryGo outF expected path attempt (n + 1) fs =
      ((retryGo outF expected path (attempt + 1) n fs).1,
       ⟨(retryGo outF expected path (attempt + 1) n fs).2.success,
        (retryGo outF expected path (attempt + 1) n fs).2.attemptsMade,
        2 ^ attempt :: (retryGo outF expected path (attempt + 1) n fs).2.delays,
        (retryGo outF expected path (attempt + 1) n fs).2.lastError⟩) := by
  conv_lhs => unfold retryGo
  rw [ho]
  simp [hn]

theorem retryGo_writes_ok (outF : Nat → AttemptOutcome) (expected : Nat) (path : String)
    (attempt n : Nat) (fs : Fs) (c : String)
    (ho : outF attempt = AttemptOutcome.writes expected c) :
    retryGo outF expected path attempt (n + 1) fs =
      (fsInsert fs path c, ⟨some c, attempt + 1, [], none⟩) := by
  conv_lhs => unfold retryGo
  rw [ho]
  simp

theorem retryGo_writes_bad_last (outF : Nat → AttemptOutcome) (expected : Nat) (path : String)
    (attempt : Nat) (fs : Fs) (s : Nat) (c : String)
    (ho : outF attempt = AttemptOutcome.writes s c) (hs : s ≠ expected) :
    retryGo outF expected path attempt 1 fs =
      (fsInsert fs path c,
       ⟨none, attempt + 1, [], some "File integrity check failed"⟩) := by
  conv_lhs => unfold retryGo
  rw [ho]
  simp [hs]

theorem retryGo_writes_bad_cont (outF : Nat → AttemptOutcome) (expected : Nat) (path : String)
    (attempt n : Nat) (fs : Fs) (s : Nat) (c : String)
    (ho : outF attempt = AttemptOutcome.writes s c) (hs : s ≠ expected) (hn : n ≠ 0) :
    retryGo outF expected path attempt (n + 1) fs =
      ((retryGo outF expected path (attempt + 1) n (fsInsert fs path c)).1,
       ⟨(retryGo outF expected path (attempt + 1) n (fsInsert fs path c)).2.success,
        (retryGo outF expected path (attempt + 1) n (fsInsert fs path c)).2.attemptsMade,
        2 ^ attempt ::
          (retryGo outF expected path (attempt + 1) n (fsInsert fs path c)).2.delays,
        (retryGo outF expected path (attempt + 1) n (fsInsert fs path c)).2.lastError⟩) := by
  conv_lhs => unfold retryGo
  rw [ho]
  simp [hs, hn]

theorem retryGo_attempts_le (outF : Nat → AttemptOutcome) (expected : Nat) (path : String) :
    ∀ fuel attempt fs,
      (retryGo outF expected path attempt fuel fs).2.attemptsMade ≤ attempt + fuel := by
  intro fuel
  induction fuel with
  | zero => intro attempt fs; simp [retryGo_zero]
  | succ n ih =>
    intro attempt fs
    rcases ho : outF attempt with e | ⟨s, c⟩
    · by_cases hn : n = 0
      · subst hn; rw [retryGo_raises_last outF expected path attempt fs e ho]
      · rw [retryGo_raises_cont outF expected path attempt n fs e ho hn]
        have := ih (attempt + 1) fs
        dsimp only
        omega
    · by_cases hs : s = expected
      · rw [hs] at ho
        rw [retryGo_writes_ok outF expected path attempt n fs c ho]
        dsimp only
        omega
      · by_cases hn : n = 0
        · subst hn; rw [retryGo_writes_bad_last outF expected path attempt fs s c ho hs]
        · rw [retryGo_writes_bad_cont outF expected path attempt n fs s c ho hs hn]
          have := ih (attempt + 1) (fsInsert fs path c)
          dsimp only
          omega

theorem retryGo_attempts_pos (outF : Nat → AttemptOutcome) (expected : Nat) (path : String) :
    ∀ fuel attempt fs, 0 < fuel →
      attempt + 1 ≤ (retryGo outF expected path attempt fuel fs).2.attemptsMade := by
  intro fuel
  induction fuel with
  | zero => intro _ _ h; exact absurd h (by simp)
  | succ n ih =>
    intro attempt fs _
    rcases ho : outF attempt with e | ⟨s, c⟩
    · by_cases hn : n = 0
      · subst hn; rw [retryGo_raises_last outF expected path attempt fs e ho]
      · rw [retryGo_raises_cont outF expected path attempt n fs e ho hn]
        have := ih (attempt + 1) fs (Nat.pos_of_ne_zero hn)
        dsimp only
        omega
    · by_cases hs : s = expected
      · rw [hs] at ho
        rw [retryGo_writes_ok outF expected path attempt n fs c ho]
      · by_cases hn : n = 0
        · subst hn; rw [retryGo_writes_bad_last outF expected path attempt fs s c ho hs]
        · rw [retryGo_writes_bad_cont outF expected path attempt n fs s c ho hs hn]
          have := ih (attempt + 1) (fsInsert fs path c) (Nat.pos_of_ne_zero hn)
          dsimp only
          omega

theorem retryGo_success_verified (outF : Nat → AttemptOutcome) (expected : Nat) (path : String) :
    ∀ fuel attempt fs c, (retryGo outF expected path attempt fuel fs).2.success = some c →
      ∃ i, attempt ≤ i ∧ i < attempt + fuel ∧ outF i = AttemptOutcome.writes expected c := by
  intro fuel
  induction fuel with
  | zero => intro attempt fs c h; simp [retryGo_zero] at h
  | succ n ih =>
    intro attempt fs c h
    rcases ho : outF attempt with e | ⟨s, c'⟩
    · by_cases hn : n = 0
      · subst hn; rw [retryGo_raises_last outF expected path attempt fs e ho] at h; simp at h
      · rw [retryGo_raises_cont outF expected path attempt n fs e ho hn] at h
        obtain ⟨i, h1, h2, h3⟩ := ih (attempt + 1) fs c h
        exact ⟨i, by omega, by omega, h3⟩
    · by_cases hs : s = expected
      · rw [hs] at ho
        rw [retryGo_writes_ok outF expected path attempt n fs c' ho] at h
        simp at h
        subst h
        exact ⟨attempt, le_refl _, by omega, ho⟩
      · by_cases hn : n = 0
        · subst hn
          rw [retryGo_writes_bad_last outF expected path attempt fs s c' ho hs] at h
          simp at h
        · rw [retryGo_writes_bad_cont outF expected path attempt n fs s c' ho hs hn] at h
          obtain ⟨i, h1, h2, h3⟩ := ih (attempt + 1) (fsInsert fs path c') c h
          exact ⟨i, by omega, by omega, h3⟩

theorem retryGo_all_fail (outF : Nat → AttemptOutcome) (expected : Nat) (path : String) :
    ∀ fuel attempt fs, 0 < fuel →
      (∀ i, attempt ≤ i → i < attempt + fuel → attemptFails (outF i) expected = true) →
      (retryGo outF expected path attempt fuel fs).2.success = none ∧
      (retryGo outF expected path attempt fuel fs).2.attemptsMade = attempt + fuel ∧
      (retryGo outF expected path attempt fuel fs).2.lastError =
        some (attemptErrMsg (outF (attempt + fuel - 1))) := by
  intro fuel
  induction fuel with
  | zero => intro _ _ h; exact absurd h (by simp)
  | succ n ih =>
    intro attempt fs _ hall
    have hfirst : attemptFails (outF attempt) expected = true :=
      hall attempt (le_refl _) (by omega)
    rcases ho : outF attempt with e | ⟨s, c⟩
    · by_cases hn : n = 0
      · subst hn
        rw [retryGo_raises_last outF expected path attempt fs e ho]
        simp [attemptErrMsg, ho]
      · rw [retryGo_raises_cont outF expected path attempt n fs e ho hn]
        have hrec := ih (attempt + 1) fs (Nat.pos_of_ne_zero hn)
          (fun i h1 h2 => hall i (by omega) (by omega))
        refine ⟨hrec.1, ?_, ?_⟩
        · dsimp only
          rw [hrec.2.1]
          omega
        · dsimp only
          rw [hrec.2.2, show attempt + 1 + n - 1 = attempt + (n + 1) - 1 from by omega]
    · have hs : ¬ s = expected := by
        rw [ho] at hfirst
        simpa [attemptFails] using hfirst
      by_cases hn : n = 0
      · subst hn
        rw [retryGo_writes_bad_last outF expected path attempt fs s c ho hs]
        simp [attemptErrMsg, ho]
      · rw [retryGo_writes_bad_cont outF expected path attempt n fs s c ho hs hn]
        have hrec := ih (attempt + 1) (fsInsert fs path c) (Nat.pos_of_ne_zero hn)
          (fun i h1 h2 => hall i (by omega) (by omega))
        refine ⟨hrec.1, ?_, ?_⟩
        · dsimp only
          rw [hrec.2.1]
          omega
        · dsimp only
          rw [hrec.2.2, show attempt + 1 + n - 1 = attempt + (n + 1) - 1 from by omega]

theorem powDelays_get (start : Nat) : ∀ n, ∀ j, ∀ h : j < (powDelays start n).length,
    (powDelays start n).get ⟨j, h⟩ = 2 ^ (start + j) := by
  intro n
  induction n generalizing start with
  | zero => intro j h; simp [powDelays] at h
  | succ m ih =>
    intro j h
    match j with
    | 0 => simp [powDelays]
    | j' + 1 =>
      simp only [powDelays, List.get_cons_succ]
      rw [ih (start + 1) j' (by simpa [powDelays] using h)]
      congr 1
      omega

theorem retryGo_delays_eq (outF : Nat → AttemptOutcome) (expected : Nat) (path : String) :
    ∀ fuel attempt fs,
      (retryGo outF expected path attempt fuel fs).2.delays =
        powDelays attempt
          ((retryGo outF expected path attempt fuel fs).2.attemptsMade - 1 - attempt) := by
  intro fuel
  induction fuel with
  | zero =>
    intro attempt fs
    simp [retryGo_zero, powDelays]
  | succ n ih =>
    intro attempt fs
    rcases ho : outF attempt with e | ⟨s, c⟩
    · by_cases hn : n = 0
      · subst hn
        rw [retryGo_raises_last outF expected path attempt fs e ho]
        simp [powDelays]
      · rw [retryGo_raises_cont outF expected path attempt n fs e ho hn]
        dsimp only
        have hpos := retryGo_attempts_pos outF expected path n (attempt + 1) fs
          (Nat.pos_of_ne_zero hn)
        rw [ih (attempt + 1) fs]
        rw [show (retryGo outF expected path (attempt + 1) n fs).2.attemptsMade - 1 - attempt =
          ((retryGo outF expected path (attempt + 1) n fs).2.attemptsMade - 1 - (attempt + 1)) + 1
          from by omega]
        rfl
    · by_cases hs : s = expected
      · rw [hs] at ho
        rw [retryGo_writes_ok outF expected path attempt n fs c ho]
        simp [powDelays]
      · by_cases hn : n = 0
        · subst hn
          rw [retryGo_writes_bad_last outF expected path attempt fs s c ho hs]
          simp [powDelays]
        · rw [retryGo_writes_bad_cont outF expected path attempt n fs s c ho hs hn]
          dsimp only
          have hpos := retryGo_attempts_pos outF expected path n (attempt + 1)
            (fsInsert fs path c) (Nat.pos_of_ne_zero hn)
          rw [ih (attempt + 1) (fsInsert fs path c)]
          rw [show (retryGo outF expected path (attempt + 1) n
              (fsInsert fs path c)).2.attemptsMade - 1 - attempt =
            ((retryGo outF expected path (attempt + 1) n
              (fsInsert fs path c)).2.attemptsMade - 1 - (attempt + 1)) + 1
            from by omega]
          rfl

theorem retryGo_fs_frame (outF : Nat → AttemptOutcome) (expected : Nat) (path : String) :
    ∀ fuel attempt fs p, p ≠ path →
      fsFind (retryGo outF expected path attempt fuel fs).1 p = fsFind fs p := by
  intro fuel
  induction fuel with
  | zero => intro attempt fs p _; simp [retryGo_zero]
  | succ n ih =>
    intro attempt fs p hp
    rcases ho : outF attempt with e | ⟨s, c⟩
    · by_cases hn : n = 0
      · subst hn; rw [retryGo_raises_last outF expected path attempt fs e ho]
      · rw [retryGo_raises_cont outF expected path attempt n fs e ho hn]
        exact ih (attempt + 1) fs p hp
    · by_cases hs : s = expected
      · rw [hs] at ho
        rw [retryGo_writes_ok outF expected path attempt n fs c ho]
        exact mapFind_insert_ne fs path p c hp
      · by_cases hn : n = 0
        · subst hn
          rw [retryGo_writes_bad_last outF expected path attempt fs s c ho hs]
          exact mapFind_insert_ne fs path p c hp
        · rw [retryGo_writes_bad_cont outF expected path attempt n fs s c ho hs hn]
          dsimp only
          rw [ih (attempt + 1) (fsInsert fs path c) p hp]
          exact mapFind_insert_ne fs path p c hp

theorem retryRun_first_success (outF : Nat → AttemptOutcome) (expected : Nat)
    (path : String) (fs : Fs) (c : String)
    (h : outF 0 = AttemptOutcome.writes expected c) :
    (retryRun outF expected path fs).2.success = some c := by
  have h3 : (3 : Nat) = 2 + 1 := rfl
  rw [retryRun, h3, retryGo_writes_ok outF expected path 0 2 fs c h]

theorem maxGapFrom_countUp_succ : ∀ n k, maxGapFrom k (countUp (k + 1) n) ≤ 1 := by
  intro n
  induction n with
  | zero => intro k; simp [countUp, maxGapFrom]
  | succ m ih =>
    intro k
    simp only [countUp, maxGapFrom]
    have h1 : k + 1 - k ≤ 1 := by omega
    have h2 := ih (k + 1)
    omega

/-! ## Facts about the retry loop at its source parameters -/
theorem retryRun_success_verified (outF : Nat → AttemptOutcome) (expected : Nat)
    (path : String) (fs : Fs) (c : String)
    (h : (retryRun outF expected path fs).2.success = some c) :
    ∃ i, i < 3 ∧ outF i = AttemptOutcome.writes expected c := by
  obtain ⟨i, h1, h2, h3⟩ := retryGo_success_verified outF expected path 3 0 fs c h
  exact ⟨i, by omega, h3⟩

theorem retryRun_all_fail (outF : Nat → AttemptOutcome) (expected : Nat)
    (path : String) (fs : Fs)
    (h : ∀ i, i < 3 → attemptFails (outF i) expected = true) :
    (retryRun outF expected path fs).2.success = none ∧
    (retryRun outF expected path fs).2.attemptsMade = 3 ∧
    (retryRun outF expected path fs).2.lastError = some (attemptErrMsg (outF 2)) := by
  have := retryGo_all_fail outF expected path 3 0 fs (by omega)
    (fun i h1 h2 => h i (by omega))
  simpa using this

theorem retryRun_attempts (outF : Nat → AttemptOutcome) (expected : Nat)
    (path : String) (fs : Fs) :
    1 ≤ (retryRun outF expected path fs).2.attemptsMade ∧
    (retryRun outF expected path fs).2.attemptsMade ≤ 3 := by
  unfold retryRun
  have h1 := retryGo_attempts_pos outF expected path 3 0 fs (by omega)
  have h2 := retryGo_attempts_le outF expected path 3 0 fs
  exact ⟨by omega, by omega⟩

theorem retryRun_delays (outF : Nat → AttemptOutcome) (expected : Nat)
    (path : String) (fs : Fs) :
    (retryRun outF expected path fs).2.delays =
      powDelays 0 ((retryRun outF expected path fs).2.attemptsMade - 1) := by
  have := retryGo_delays_eq outF expected path 3 0 fs
  simpa using this

theorem retryRun_fs_frame (outF : Nat → AttemptOutcome) (expected : Nat)
    (path : String) (fs : Fs) (p : String) (hp : p ≠ path) :
    fsFind (retryRun outF expected path fs).1 p = fsFind fs p :=
  retryGo_fs_frame outF expected path 3 0 fs p hp

/-! ## Facts about the paginator iteration -/
theorem runPages_fst {σ : Type} (f : σ → RemoteObj → σ) :
    ∀ ps s, (runPages f s ps).1 = List.foldl f s (listedObjs ps) := by
  intro ps
  induction ps with
  | nil => intro s; simp [runPages, listedObjs]
  | cons p rest ih =>
    intro s
    match p with
    | Except.error e => simp [runPages, listedObjs]
    | Except.ok objs => simp [runPages, listedObjs, List.foldl_append, ih]

theorem runPages_none {σ : Type} (f : σ → RemoteObj → σ) :
    ∀ ps s, noPageError ps = true → (runPages f s ps).2 = none := by
  intro ps
  induction ps with
  | nil => intro s _; simp [runPages]
  | cons p rest ih =>
    intro s h
    match p with
    | Except.error e => simp [noPageError] at h
    | Except.ok objs =>
      simp only [noPageError, List.all_cons, Bool.and_eq_true] at h
      exact ih _ (by simpa [noPageError] using h.2)

/-! ## Facts about one monitor object step -/
theorem monitorProcessObj_unchanged (localFolder pfx : String) (env : CycleEnv)
    (acc : MonAcc) (obj : RemoteObj)
    (h : (monitorDetect (mapFind acc.last obj.key) obj).1 = false) :
    monitorProcessObj localFolder pfx env acc obj = { acc with checked := acc.checked + 1 } := by
  unfold monitorProcessObj
  simp [h]

theorem monitorProcessObj_success (localFolder pfx : String) (env : CycleEnv)
    (acc : MonAcc) (obj : RemoteObj) (c : String)
    (h : (monitorDetect (mapFind acc.last obj.key) obj).1 = true)
    (hs : (retryRun (env.outcomes obj.key) obj.size
        (localPathOf localFolder pfx obj.key) acc.fs).2.success = some c) :
    monitorProcessObj localFolder pfx env acc obj =
      { fs := (retryRun (env.outcomes obj.key) obj.size
          (localPathOf localFolder pfx obj.key) acc.fs).1,
        last := mapInsert acc.last obj.key
          (StoredInfo.full obj.lastModified obj.etag obj.size (env.hashOf c) env.now none),
        checked := acc.checked + 1,
        downloaded := acc.downloaded + 1,
        errors := acc.errors,
        failLog := acc.failLog } := by
  unfold monitorProcessObj
  simp [h, hs]

theorem monitorProcessObj_failure (localFolder pfx : String) (env : CycleEnv)
    (acc : MonAcc) (obj : RemoteObj)
    (h : (monitorDetect (mapFind acc.last obj.key) obj).1 = true)
    (hs : (retryRun (env.outcomes obj.key) obj.size
        (localPathOf localFolder pfx obj.key) acc.fs).2.success = none) :
    monitorProcessObj localFolder pfx env acc obj =
      { fs := (retryRun (env.outcomes obj.key) obj.size
          (localPathOf localFolder pfx obj.key) acc.fs).1,
        last := acc.last,
        checked := acc.checked + 1,
        downloaded := acc.downloaded,
        errors := acc.errors + 1,
        failLog := (obj.key,
          (retryRun (env.outcomes obj.key) obj.size
            (localPathOf localFolder pfx obj.key) acc.fs).2.lastError.getD "") ::
          acc.failLog } := by
  unfold monitorProcessObj
  simp [h, hs]

theorem monitorProcessObj_checked (localFolder pfx : String) (env : CycleEnv)
    (acc : MonAcc) (obj : RemoteObj) :
    (monitorProcessObj localFolder pfx env acc obj).checked = acc.checked + 1 := by
  by_cases h : (monitorDetect (mapFind acc.last obj.key) obj).1 = true
  · cases hs : (retryRun (env.outcomes obj.key) obj.size
        (localPathOf localFolder pfx obj.key) acc.fs).2.success with
    | some c => rw [monitorProcessObj_success localFolder pfx env acc obj c h hs]
    | none => rw [monitorProcessObj_failure localFolder pfx env acc obj h hs]
  · rw [monitorProcessObj_unchanged localFolder pfx env acc obj
      (by simpa using h)]

theorem monitorProcessObj_find_ne (localFolder pfx : String) (env : CycleEnv)
    (acc : MonAcc) (obj : RemoteObj) (k : String) (hk : k ≠ obj.key) :
    mapFind (monitorProcessObj localFolder pfx env acc obj).last k = mapFind acc.last k := by
  by_cases h : (monitorDetect (mapFind acc.last obj.key) obj).1 = true
  · cases hs : (retryRun (env.outcomes obj.key) obj.size
        (localPathOf localFolder pfx obj.key) acc.fs).2.success with
    | some c =>
      rw [monitorProcessObj_success localFolder pfx env acc obj c h hs]
      exact mapFind_insert_ne acc.last obj.key k _ hk
    | none => rw [monitorProcessObj_failure localFolder pfx env acc obj h hs]
  · rw [monitorProcessObj_unchanged localFolder pfx env acc obj (by simpa using h)]

theorem monitorProcessObj_keys (localFolder pfx : String) (env : CycleEnv)
    (acc : MonAcc) (obj : RemoteObj) (k : String)
    (hk : (mapFind acc.last k).isSome) :
    (mapFind (monitorProcessObj localFolder pfx env acc obj).last k).isSome := by
  by_cases he : k = obj.key
  · subst he
    by_cases h : (monitorDetect (mapFind acc.last obj.key) obj).1 = true
    · cases hs : (retryRun (env.outcomes obj.key) obj.size
          (localPathOf localFolder pfx obj.key) acc.fs).2.success with
      | some c =>
        rw [monitorProcessObj_success localFolder pfx env acc obj c h hs]
        simp [mapFind_insert_self]
      | none =>
        rw [monitorProcessObj_failure localFolder pfx env acc obj h hs]
        exact hk
    · rw [monitorProcessObj_unchanged localFolder pfx env acc obj (by simpa using h)]
      exact hk
  · rw [monitorProcessObj_find_ne localFolder pfx env acc obj k he]
    exact hk

theorem monitorProcessObj_establishes (localFolder pfx : String) (env : CycleEnv)
    (acc : MonAcc) (obj : RemoteObj)
    (hdl : ∃ c, env.outcomes obj.key 0 = AttemptOutcome.writes obj.size c) :
    (monitorDetect (mapFind (monitorProcessObj localFolder pfx env acc obj).last obj.key)
      obj).1 = false := by
  obtain ⟨c, hc⟩ := hdl
  by_cases h : (monitorDetect (mapFind acc.last obj.key) obj).1 = true
  · have hs := retryRun_first_success (env.outcomes obj.key) obj.size
      (localPathOf localFolder pfx obj.key) acc.fs c hc
    rw [monitorProcessObj_success localFolder pfx env acc obj c h hs]
    dsimp only
    rw [mapFind_insert_self]
    simp [monitorDetect]
  · rw [monitorProcessObj_unchanged localFolder pfx env acc obj (by simpa using h)]
    dsimp only
    simpa using h

theorem monitorProcessObj_fs_frame (localFolder pfx : String) (env : CycleEnv)
    (acc : MonAcc) (obj : RemoteObj) (p : String)
    (hp : p ≠ localPathOf localFolder pfx obj.key) :
    fsFind (monitorProcessObj localFolder pfx env acc obj).fs p = fsFind acc.fs p := by
  by_cases h : (monitorDetect (mapFind acc.last obj.key) obj).1 = true
  · cases hs : (retryRun (env.outcomes obj.key) obj.size
        (localPathOf localFolder pfx obj.key) acc.fs).2.success with
    | some c =>
      rw [monitorProcessObj_success localFolder pfx env acc obj c h hs]
      exact retryRun_fs_frame _ _ _ _ p hp
    | none =>
      rw [monitorProcessObj_failure localFolder pfx env acc obj h hs]
      exact retryRun_fs_frame _ _ _ _ p hp
  · rw [monitorProcessObj_unchanged localFolder pfx env acc obj (by simpa using h)]

/-! ## Facts about a full monitor pass -/
theorem foldl_mon_checked (localFolder pfx : String) (env : CycleEnv) :
    ∀ objs (acc : MonAcc),
      (List.foldl (monitorProcessObj localFolder pfx env) acc objs).checked =
        acc.checked + objs.length := by
  intro objs
  induction objs with
  | nil => intro acc; simp
  | cons o os ih =>
    intro acc
    simp only [List.foldl_cons, List.length_cons]
    rw [ih, monitorProcessObj_checked]
    omega

theorem foldl_mon_find_ne (localFolder pfx : String) (env : CycleEnv) :
    ∀ objs (acc : MonAcc) (k : String), (∀ o ∈ objs, k ≠ o.key) →
      mapFind (List.foldl (monitorProcessObj localFolder pfx env) acc objs).last k =
        mapFind acc.last k := by
  intro objs
  induction objs with
  | nil => intro acc k _; simp
  | cons o os ih =>
    intro acc k hk
    simp only [List.foldl_cons]
    rw [ih _ k (fun o' ho' => hk o' (List.mem_cons_of_mem o ho'))]
    exact monitorProcessObj_find_ne localFolder pfx env acc o k (hk o (List.mem_cons_self o os))

theorem foldl_mon_keys (localFolder pfx : String) (env : CycleEnv) :
    ∀ objs (acc : MonAcc) (k : String), (mapFind acc.last k).isSome →
      (mapFind (List.foldl (monitorProcessObj localFolder pfx env) acc objs).last k).isSome := by
  intro objs
  induction objs with
  | nil => intro acc k hk; simpa using hk
  | cons o os ih =>
    intro acc k hk
    simp only [List.foldl_cons]
    exact ih _ k (monitorProcessObj_keys localFolder pfx env acc o k hk)

theorem foldl_mon_fs_frame (localFolder pfx : String) (env : CycleEnv) :
    ∀ objs (acc : MonAcc) (p : String),
      (∀ o ∈ objs, p ≠ localPathOf localFolder pfx o.key) →
      fsFind (List.foldl (monitorProcessObj localFolder pfx env) acc objs).fs p =
        fsFind acc.fs p := by
  intro objs
  induction objs with
  | nil => intro acc p _; simp
  | cons o os ih =>
    intro acc p hp
    simp only [List.foldl_cons]
    rw [ih _ p (fun o' ho' => hp o' (List.mem_cons_of_mem o ho'))]
    exact monitorProcessObj_fs_frame localFolder pfx env acc o p (hp o (List.mem_cons_self o os))

theorem foldl_mon_all_unchanged (localFolder pfx : String) (env : CycleEnv) :
    ∀ objs (acc : MonAcc),
      (∀ o ∈ objs, (monitorDetect (mapFind acc.last o.key) o).1 = false) →
      (List.foldl (monitorProcessObj localFolder pfx env) acc objs).last = acc.last ∧
      (List.foldl (monitorProcessObj localFolder pfx env) acc objs).downloaded =
        acc.downloaded := by
  intro objs
  induction objs with
  | nil => intro acc _; exact ⟨rfl, rfl⟩
  | cons o os ih =>
    intro acc hall
    simp only [List.foldl_cons]
    rw [monitorProcessObj_unchanged localFolder pfx env acc o (hall o (List.mem_cons_self o os))]
    exact ih _ (fun o' ho' => hall o' (List.mem_cons_of_mem o ho'))

theorem foldl_mon_establishes (localFolder pfx : String) (env : CycleEnv) :
    ∀ objs (acc : MonAcc),
      (∀ o ∈ objs, ∃ c, env.outcomes o.key 0 = AttemptOutcome.writes o.size c) →
      (objs.map RemoteObj.key).Nodup →
      ∀ o ∈ objs,
        (monitorDetect
          (mapFind (List.foldl (monitorProcessObj localFolder pfx env) acc objs).last o.key)
          o).1 = false := by
  intro objs
  induction objs with
  | nil => intro acc _ _ o ho; simp at ho
  | cons o os ih =>
    intro acc hdl hnd o' ho'
    simp only [List.map_cons, List.nodup_cons] at hnd
    rcases List.mem_cons.mp ho' with he | ht
    · subst he
      simp only [List.foldl_cons]
      rw [foldl_mon_find_ne localFolder pfx env os _ o'.key
        (fun ob hob hkey => hnd.1 (hkey ▸ List.mem_map_of_mem RemoteObj.key hob))]
      exact monitorProcessObj_establishes localFolder pfx env acc o'
        (hdl o' (List.mem_cons_self o' os))
    · simp only [List.foldl_cons]
      exact ih _ (fun ob hob => hdl ob (List.mem_cons_of_mem o hob)) hnd.2 o' ht

theorem backupProcessObj_skip (localFolder pfx : String) (env : CycleEnv) (cycleNum : Nat)
    (acc : BackupAcc) (obj : RemoteObj)
    (h : (backupDetect (mapFind acc.history obj.key) obj).1 = false) :
    backupProcessObj localFolder pfx env cycleNum acc obj =
      { acc with skipped := acc.skipped + 1 } := by
  unfold backupProcessObj
  simp [h]

theorem backupProcessObj_success (localFolder pfx : String) (env : CycleEnv) (cycleNum : Nat)
    (acc : BackupAcc) (obj : RemoteObj) (c : String)
    (hd : (backupDetect (mapFind acc.history obj.key) obj).1 = true)
    (hs : (backupRetry localFolder pfx env acc obj).2.success = some c) :
    backupProcessObj localFolder pfx env cycleNum acc obj =
      { fs := (backupRetry localFolder pfx env acc obj).1,
        history := mapInsert acc.history obj.key
          (StoredInfo.full obj.lastModified obj.etag obj.size
            (env.hashOf c) env.now (some cycleNum)),
        backedUp := acc.backedUp + 1,
        skipped := acc.skipped,
        perObjErrors := acc.perObjErrors,
        downloadsAttempted := acc.downloadsAttempted + 1,
        versioned := match (backupVersionStep localFolder pfx env acc obj).archived with
                     | some bp => bp :: acc.versioned
                     | none => acc.versioned,
        versionFailLog := if (backupVersionStep localFolder pfx env acc obj).moveFailed
                          then relPathOf pfx obj.key :: acc.versionFailLog
                          else acc.versionFailLog,
        failLog := acc.failLog } := by
  unfold backupRetry backupVersionStep at hs
  unfold backupProcessObj backupRetry backupVersionStep
  simp [hd, hs]

theorem backupProcessObj_failure (localFolder pfx : String) (env : CycleEnv) (cycleNum : Nat)
    (acc : BackupAcc) (obj : RemoteObj)
    (hd : (backupDetect (mapFind acc.history obj.key) obj).1 = true)
    (hs : (backupRetry localFolder pfx env acc obj).2.success = none) :
    backupProcessObj localFolder pfx env cycleNum acc obj =
      { fs := (backupRetry localFolder pfx env acc obj).1,
        history := acc.history,
        backedUp := acc.backedUp,
        skipped := acc.skipped,
        perObjErrors := acc.perObjErrors + 1,
        downloadsAttempted := acc.downloadsAttempted + 1,
        versioned := match (backupVersionStep localFolder pfx env acc obj).archived with
                     | some bp => bp :: acc.versioned
                     | none => acc.versioned,
        versionFailLog := if (backupVersionStep localFolder pfx env acc obj).moveFailed
                          then relPathOf pfx obj.key :: acc.versionFailLog
                          else acc.versionFailLog,
        failLog := (obj.key,
          (backupRetry localFolder pfx env acc obj).2.lastError.getD "") ::
          acc.failLog } := by
  unfold backupRetry backupVersionStep at hs
  unfold backupProcessObj backupRetry backupVersionStep
  simp [hd, hs]

theorem backupProcessObj_attempted (localFolder pfx : String) (env : CycleEnv) (cycleNum : Nat)
    (acc : BackupAcc) (obj : RemoteObj)
    (hd : (backupDetect (mapFind acc.history obj.key) obj).1 = true) :
    (backupProcessObj localFolder pfx env cycleNum acc obj).downloadsAttempted =
      acc.downloadsAttempted + 1 := by
  cases hs : (backupRetry localFolder pfx env acc obj).2.success with
  | some c => rw [backupProcessObj_success localFolder pfx env cycleNum acc obj c hd hs]
  | none => rw [backupProcessObj_failure localFolder pfx env cycleNum acc obj hd hs]

theorem backupProcessObj_history_find_ne (localFolder pfx : String) (env : CycleEnv)
    (cycleNum : Nat) (acc : BackupAcc) (obj : RemoteObj) (k : String) (hk : k ≠ obj.key) :
    mapFind (backupProcessObj localFolder pfx env cycleNum acc obj).history k =
      mapFind acc.history k := by
  by_cases hd : (backupDetect (mapFind acc.history obj.key) obj).1 = true
  · cases hs : (backupRetry localFolder pfx env acc obj).2.success with
    | some c =>
      rw [backupProcessObj_success localFolder pfx env cycleNum acc obj c hd hs]
      exact mapFind_insert_ne acc.history obj.key k _ hk
    | none => rw [backupProcessObj_failure localFolder pfx env cycleNum acc obj hd hs]
  · rw [backupProcessObj_skip localFolder pfx env cycleNum acc obj (by simpa using hd)]

theorem backupProcessObj_keys (localFolder pfx : String) (env : CycleEnv) (cycleNum : Nat)
    (acc : BackupAcc) (obj : RemoteObj) (k : String)
    (hk : (mapFind acc.history k).isSome) :
    (mapFind (backupProcessObj localFolder pfx env cycleNum acc obj).history k).isSome := by
  by_cases he : k = obj.key
  · subst he
    by_cases hd : (backupDetect (mapFind acc.history obj.key) obj).1 = true
    · cases hs : (backupRetry localFolder pfx env acc obj).2.success with
      | some c =>
        rw [backupProcessObj_success localFolder pfx env cycleNum acc obj c hd hs]
        simp [mapFind_insert_self]
      | none =>
        rw [backupProcessObj_failure localFolder pfx env cycleNum acc obj hd hs]
        exact hk
    · rw [backupProcessObj_skip localFolder pfx env cycleNum acc obj (by simpa using hd)]
      exact hk
  · rw [backupProcessObj_history_find_ne localFolder pfx env cycleNum acc obj k he]
    exact hk

theorem versionExisting_fs_frame (localFolder relPath lp stamp : String) (rf : Bool)
    (fs : Fs) (p : String) (h1 : p ≠ lp)
    (h2 : ∀ name, p ≠ joinPath (joinPath localFolder ".versions") name) :
    fsFind (versionExisting localFolder relPath lp stamp rf fs).fs p = fsFind fs p := by
  unfold versionExisting
  cases hf : fsFind fs lp with
  | none => rfl
  | some c0 =>
    by_cases hrf : rf = true
    · simp [hrf]
    · simp only [Bool.not_eq_true] at hrf
      simp only [hrf, Bool.false_eq_true, if_false]
      unfold fsMove
      rw [show mapFind fs lp = some c0 from hf]
      dsimp only [fsFind]
      rw [mapFind_insert_ne _ _ _ _ (h2 _), mapFind_erase_ne _ _ _ h1]

theorem versionExisting_skipped (localFolder relPath lp stamp : String) (rf : Bool)
    (fs : Fs) (hf : fsFind fs lp = none) :
    versionExisting localFolder relPath lp stamp rf fs = ⟨fs, none, false⟩ := by
  unfold versionExisting
  rw [hf]

theorem versionExisting_fail (localFolder relPath lp stamp : String) (fs : Fs) (c : String)
    (hex : fsFind fs lp = some c) :
    versionExisting localFolder relPath lp stamp true fs = ⟨fs, none, true⟩ := by
  unfold versionExisting
  rw [hex]
  simp

theorem versionExisting_moves (localFolder relPath lp stamp : String) (fs : Fs) (c : String)
    (hex : fsFind fs lp = some c)
    (hne : lp ≠ joinPath (joinPath localFolder ".versions") (baseName relPath ++ "_" ++ stamp)) :
    (versionExisting localFolder relPath lp stamp false fs).archived =
      some (joinPath (joinPath localFolder ".versions") (baseName relPath ++ "_" ++ stamp)) ∧
    (versionExisting localFolder relPath lp stamp false fs).moveFailed = false ∧
    fsFind (versionExisting localFolder relPath lp stamp false fs).fs lp = none ∧
    fsFind (versionExisting localFolder relPath lp stamp false fs).fs
      (joinPath (joinPath localFolder ".versions") (baseName relPath ++ "_" ++ stamp)) =
      some c := by
  have hve : versionExisting localFolder relPath lp stamp false fs =
      ⟨fsMove fs lp (joinPath (joinPath localFolder ".versions")
          (baseName relPath ++ "_" ++ stamp)),
       some (joinPath (joinPath localFolder ".versions")
          (baseName relPath ++ "_" ++ stamp)),
       false⟩ := by
    unfold versionExisting
    rw [hex]
    simp
  rw [hve]
  refine ⟨rfl, rfl, ?_, ?_⟩
  · unfold fsMove
    rw [show mapFind fs lp = some c from hex]
    dsimp only [fsFind]
    rw [mapFind_insert_ne _ _ _ _ hne, mapFind_erase_self]
  · unfold fsMove
    rw [show mapFind fs lp = some c from hex]
    dsimp only [fsFind]
    rw [mapFind_insert_self]

theorem backupProcessObj_fs_frame (localFolder pfx : String) (env : CycleEnv)
    (cycleNum : Nat) (acc : BackupAcc) (obj : RemoteObj) (p : String)
    (h1 : p ≠ joinPath localFolder (relPathOf pfx obj.key))
    (h2 : ∀ name, p ≠ joinPath (joinPath localFolder ".versions") name) :
    fsFind (backupProcessObj localFolder pfx env cycleNum acc obj).fs p =
      fsFind acc.fs p := by
  have hver : fsFind (backupVersionStep localFolder pfx env acc obj).fs p = fsFind acc.fs p :=
    versionExisting_fs_frame localFolder (relPathOf pfx obj.key)
      (joinPath localFolder (relPathOf pfx obj.key)) env.stamp
      (env.renameFails obj.key) acc.fs p h1 h2
  have hrr : fsFind (backupRetry localFolder pfx env acc obj).1 p = fsFind acc.fs p := by
    unfold backupRetry
    rw [retryRun_fs_frame _ _ _ _ p h1]
    exact hver
  by_cases hd : (backupDetect (mapFind acc.history obj.key) obj).1 = true
  · cases hs : (backupRetry localFolder pfx env acc obj).2.success with
    | some c =>
      rw [backupProcessObj_success localFolder pfx env cycleNum acc obj c hd hs]
      exact hrr
    | none =>
      rw [backupProcessObj_failure localFolder pfx env cycleNum acc obj hd hs]
      exact hrr
  · rw [backupProcessObj_skip localFolder pfx env cycleNum acc obj (by simpa using hd)]

/-! ## Facts about a full backup pass -/
theorem foldl_backup_keys (localFolder pfx : String) (env : CycleEnv) (cycleNum : Nat) :
    ∀ objs (acc : BackupAcc) (k : String), (mapFind acc.history k).isSome →
      (mapFind (List.foldl (backupProcessObj localFolder pfx env cycleNum) acc objs).history
        k).isSome := by
  intro objs
  induction objs with
  | nil => intro acc k hk; simpa using hk
  | cons o os ih =>
    intro acc k hk
    simp only [List.foldl_cons]
    exact ih _ k (backupProcessObj_keys localFolder pfx env cycleNum acc o k hk)

theorem foldl_backup_fs_frame (localFolder pfx : String) (env : CycleEnv) (cycleNum : Nat) :
    ∀ objs (acc : BackupAcc) (p : String),
      (∀ o ∈ objs, p ≠ joinPath localFolder (relPathOf pfx o.key)) →
      (∀ name, p ≠ joinPath (joinPath localFolder ".versions") name) →
      fsFind (List.foldl (backupProcessObj localFolder pfx env cycleNum) acc objs).fs p =
        fsFind acc.fs p := by
  intro objs
  induction objs with
  | nil => intro acc p _ _; simp
  | cons o os ih =>
    intro acc p hp h2
    simp only [List.foldl_cons]
    rw [ih _ p (fun o' ho' => hp o' (List.mem_cons_of_mem o ho')) h2]
    exact backupProcessObj_fs_frame localFolder pfx env cycleNum acc o p
      (hp o (List.mem_cons_self o os)) h2

/-! ## Cycle-level projections -/
theorem monitorCycle_last (bucket localFolder pfx : String) (st : MonitorState)
    (env : CycleEnv) :
    (monitorCycle bucket localFolder pfx st env).state.last =
      (runPages (monitorProcessObj localFolder pfx env)
        (⟨st.fs, st.last, 0, 0, 0, []⟩ : MonAcc) env.pages).1.last := by
  simp only [monitorCycle]
  cases hrun : (runPages (monitorProcessObj localFolder pfx env)
      (⟨st.fs, st.last, 0, 0, 0, []⟩ : MonAcc) env.pages).2 with
  | none => rfl
  | some e => rfl

theorem monitorCycle_fs (bucket localFolder pfx : String) (st : MonitorState)
    (env : CycleEnv) :
    (monitorCycle bucket localFolder pfx st env).state.fs =
      (runPages (monitorProcessObj localFolder pfx env)
        (⟨st.fs, st.last, 0, 0, 0, []⟩ : MonAcc) env.pages).1.fs := by
  simp only [monitorCycle]
  cases hrun : (runPages (monitorProcessObj localFolder pfx env)
      (⟨st.fs, st.last, 0, 0, 0, []⟩ : MonAcc) env.pages).2 with
  | none => rfl
  | some e => rfl

theorem monitorCycle_downloaded (bucket localFolder pfx : String) (st : MonitorState)
    (env : CycleEnv) :
    (monitorCycle bucket localFolder pfx st env).downloaded =
      (runPages (monitorProcessObj localFolder pfx env)
        (⟨st.fs, st.last, 0, 0, 0, []⟩ : MonAcc) env.pages).1.downloaded := by
  simp only [monitorCycle]
  cases hrun : (runPages (monitorProcessObj localFolder pfx env)
      (⟨st.fs, st.last, 0, 0, 0, []⟩ : MonAcc) env.pages).2 with
  | none => rfl
  | some e => rfl

theorem monitorCycle_checked (bucket localFolder pfx : String) (st : MonitorState)
    (env : CycleEnv) :
    (monitorCycle bucket localFolder pfx st env).checked =
      (runPages (monitorProcessObj localFolder pfx env)
        (⟨st.fs, st.last, 0, 0, 0, []⟩ : MonAcc) env.pages).1.checked := by
  simp only [monitorCycle]
  cases hrun : (runPages (monitorProcessObj localFolder pfx env)
      (⟨st.fs, st.last, 0, 0, 0, []⟩ : MonAcc) env.pages).2 with
  | none => rfl
  | some e => rfl

theorem backupCycle_history (bucket localFolder pfx : String) (st : BackupState)
    (env : CycleEnv) :
    (backupCycle bucket localFolder pfx st env).state.history =
      (runPages (backupProcessObj localFolder pfx env (st.backupCount + 1))
        (⟨st.fs, st.history, 0, 0, 0, 0, [], [], []⟩ : BackupAcc) env.pages).1.history := by
  simp only [backupCycle]
  cases hrun : (runPages (backupProcessObj localFolder pfx env (st.backupCount + 1))
      (⟨st.fs, st.history, 0, 0, 0, 0, [], [], []⟩ : BackupAcc) env.pages).2 with
  | none => rfl
  | some e =>
    by_cases h3 : 3 ≤ (runPages (backupProcessObj localFolder pfx env (st.backupCount + 1))
        (⟨st.fs, st.history, 0, 0, 0, 0, [], [], []⟩ : BackupAcc) env.pages).1.perObjErrors + 1 <;>
      simp [h3]

theorem backupCycle_fs (bucket localFolder pfx : String) (st : BackupState)
    (env : CycleEnv) :
    (backupCycle bucket localFolder pfx st env).state.fs =
      (runPages (backupProcessObj localFolder pfx env (st.backupCount + 1))
        (⟨st.fs, st.history, 0, 0, 0, 0, [], [], []⟩ : BackupAcc) env.pages).1.fs := by
  simp only [backupCycle]
  cases hrun : (runPages (backupProcessObj localFolder pfx env (st.backupCount + 1))
      (⟨st.fs, st.history, 0, 0, 0, 0, [], [], []⟩ : BackupAcc) env.pages).2 with
  | none => rfl
  | some e =>
    by_cases h3 : 3 ≤ (runPages (backupProcessObj localFolder pfx env (st.backupCount + 1))
        (⟨st.fs, st.history, 0, 0, 0, 0, [], [], []⟩ : BackupAcc) env.pages).1.perObjErrors + 1 <;>
      simp [h3]

theorem monitorCycle_cycleError (bucket localFolder pfx : String) (st : MonitorState)
    (env : CycleEnv) :
    (monitorCycle bucket localFolder pfx st env).cycleError =
      (runPages (monitorProcessObj localFolder pfx env)
        (⟨st.fs, st.last, 0, 0, 0, []⟩ : MonAcc) env.pages).2 := by
  simp only [monitorCycle]
  cases hrun : (runPages (monitorProcessObj localFolder pfx env)
      (⟨st.fs, st.last, 0, 0, 0, []⟩ : MonAcc) env.pages).2 with
  | none => rfl
  | some e => rfl

theorem powDelays_getD (start : Nat) : ∀ n j, j < (powDelays start n).length →
    (powDelays start n).getD j 0 = 2 ^ (start + j) := by
  intro n
  induction n generalizing start with
  | zero => intro j h; simp [powDelays] at h
  | succ m ih =>
    intro j h
    match j with
    | 0 => simp [powDelays]
    | j' + 1 =>
      simp only [powDelays, List.getD_cons_succ]
      rw [ih (start + 1) j' (by simpa [powDelays] using h)]
      congr 1
      omega

/-! ## Claims C3, C4, C5 and C8 -/
/-- C3 (code bug): the consecutive-failure counter is reset to 0 at the top
of the `try` block of every cycle (aws_ui.py line 110, despite the adjacent
comment `Reset error counter on successful operation`), so after any number
of consecutive cycle-level failures it equals 1, never reaches the threshold
of 5, and the interval is never doubled: five consecutive listing failures
leave the interval at 60 where the claim demands min(120, 300) = 120. -/
theorem c3_escalation_unreachable :
    (c3After 1).consecutiveErrors = 1 ∧
    (c3After 2).consecutiveErrors = 1 ∧
    (c3After 3).consecutiveErrors = 1 ∧
    (c3After 4).consecutiveErrors = 1 ∧
    (c3After 5).consecutiveErrors = 1 ∧
    (c3After 5).interval = 60 ∧
    min (60 * 2) 300 = 120 := by
  refine ⟨rfl, rfl, rfl, rfl, rfl, rfl, rfl⟩

/-- C4 (code bug): a monitor cycle that downloaded one object reaches the
`save_backup_metadata` call, but `json.dump` raises `TypeError` on the raw
datetime stored in the entry, so no readable document is persisted and a
subsequent load yields nothing; a cycle aborted by a listing error never
reaches the call at all; only a cycle whose mapping holds no entries
actually persists — contradicting the claim that every cycle ends by
persisting the document. -/
theorem c4_persistence_fails :
    (monitorCycle "bucket" "mirror" "" c4Start c4OkEnv).downloaded = 1 ∧
    (monitorCycle "bucket" "mirror" "" c4Start c4OkEnv).saveCalled = true ∧
    (monitorCycle "bucket" "mirror" "" c4Start c4OkEnv).saved = false ∧
    loadBackupMetadata (monitorCycle "bucket" "mirror" "" c4Start c4OkEnv).state.disk = [] ∧
    (monitorCycle "bucket" "mirror" "" c4Start c3FailEnv).saveCalled = false ∧
    (monitorCycle "bucket" "mirror" "" c4Start c4EmptyEnv).saved = true := by
  refine ⟨rfl, rfl, rfl, rfl, rfl, rfl⟩

/-- C5 (code bug): every fingerprint entry the engine commits stores the raw
boto3 datetime under `last_modified`, and such an entry is not JSON
serializable, so `save_backup_metadata` raises inside `json.dump`, logs the
error, leaves no readable file, and the save-then-load round trip returns the
empty mapping instead of the saved one. -/
theorem c5_roundtrip_fails :
    (∀ lm et sz ch t cn,
      PyEntry.serializable
        (StoredInfo.toPy (StoredInfo.full (PyTime.dt lm) et sz ch t cn)) = false) ∧
    (saveBackupMetadata c5Doc).2 = true ∧
    (saveBackupMetadata c5Doc).1 = none ∧
    loadBackupMetadata (saveBackupMetadata c5Doc).1 = [] ∧
    c5Doc.files ≠ [] := by
  refine ⟨?_, rfl, rfl, rfl, by decide⟩
  intro lm et sz ch t cn
  cases ch <;> cases cn <;> rfl

/-- C8 counterexample: at the monitor UI's default interval of 60 seconds the
inter-cycle sleep is one `time.sleep(60)` with no stop check inside it, so
the longest unchecked stretch is 60 time units, falsifying the claim that
every mode checks the stop signal at least once per time unit. -/
theorem c8_counterexample :
    maxCheckGap (monitorSleepCheckTimes 60) = 60 ∧
    ¬ maxCheckGap (monitorSleepCheckTimes 60) ≤ 1 := by
  decide

/-- C8 as amended: the backup-mode inter-cycle wait checks the stop signal
at least once per second (the unchecked gap never exceeds one time unit),
while the monitor-mode wait is a single uninterruptible sleep of the whole
interval, whose unchecked gap equals the full interval. -/
theorem c8_amended_sleep (interval : Nat) :
    maxCheckGap (backupSleepCheckTimes interval) ≤ 1 ∧
    maxCheckGap (monitorSleepCheckTimes interval) = interval := by
  constructor
  · unfold backupSleepCheckTimes maxCheckGap
    cases h : interval * 60 with
    | zero => simp [countUp, maxGapFrom]
    | succ m =>
      simp only [countUp, maxGapFrom]
      have h1 := maxGapFrom_countUp_succ m 0
      simp only [Nat.zero_add] at h1 ⊢
      omega
  · simp [monitorSleepCheckTimes, maxCheckGap, maxGapFrom]

/-! ## Claim C2 -/
/-- C2: an entry reaches the metadata mapping only through a download attempt
whose written size equals the object's reported size (and then it is exactly
the fully-formed entry, never a partial one); when every attempt fails the
size check or raises, the mapping is left unchanged in both threads, the
retry loop has consumed all 3 attempts, and the monitor thread logs the
failure for that key. -/
theorem c2_commit_integrity (localFolder pfx : String) (env : CycleEnv) (cycleNum : Nat)
    (acc : MonAcc) (bacc : BackupAcc) (obj : RemoteObj) :
    (∀ e, mapFind (monitorProcessObj localFolder pfx env acc obj).last obj.key = some e →
      mapFind acc.last obj.key = some e ∨
      ∃ c i, i < 3 ∧ env.outcomes obj.key i = AttemptOutcome.writes obj.size c ∧
        e = StoredInfo.full obj.lastModified obj.etag obj.size
          (env.hashOf c) env.now none) ∧
    ((∀ i, i < 3 → attemptFails (env.outcomes obj.key i) obj.size = true) →
      (monitorProcessObj localFolder pfx env acc obj).last = acc.last ∧
      (retryRun (env.outcomes obj.key) obj.size (localPathOf localFolder pfx obj.key)
        acc.fs).2.attemptsMade = 3 ∧
      (backupProcessObj localFolder pfx env cycleNum bacc obj).history = bacc.history ∧
      ((monitorDetect (mapFind acc.last obj.key) obj).1 = true →
        (monitorProcessObj localFolder pfx env acc obj).failLog =
          (obj.key, attemptErrMsg (env.outcomes obj.key 2)) :: acc.failLog)) := by
  constructor
  · intro e he
    by_cases hd : (monitorDetect (mapFind acc.last obj.key) obj).1 = true
    · cases hs : (retryRun (env.outcomes obj.key) obj.size
          (localPathOf localFolder pfx obj.key) acc.fs).2.success with
      | some c =>
        rw [monitorProcessObj_success localFolder pfx env acc obj c hd hs] at he
        dsimp only at he
        rw [mapFind_insert_self] at he
        obtain ⟨i, hi, hw⟩ := retryRun_success_verified (env.outcomes obj.key) obj.size
          (localPathOf localFolder pfx obj.key) acc.fs c hs
        right
        exact ⟨c, i, hi, hw, by injection he with h; exact h.symm⟩
      | none =>
        rw [monitorProcessObj_failure localFolder pfx env acc obj hd hs] at he
        exact Or.inl he
    · rw [monitorProcessObj_unchanged localFolder pfx env acc obj (by simpa using hd)] at he
      exact Or.inl he
  · intro hall
    have hmon := retryRun_all_fail (env.outcomes obj.key) obj.size
      (localPathOf localFolder pfx obj.key) acc.fs hall
    have hbak := retryRun_all_fail (env.outcomes obj.key) obj.size
      (joinPath localFolder (relPathOf pfx obj.key))
      (backupVersionStep localFolder pfx env bacc obj).fs hall
    refine ⟨?_, hmon.2.1, ?_, ?_⟩
    · by_cases hd : (monitorDetect (mapFind acc.last obj.key) obj).1 = true
      · rw [monitorProcessObj_failure localFolder pfx env acc obj hd hmon.1]
      · rw [monitorProcessObj_unchanged localFolder pfx env acc obj (by simpa using hd)]
    · by_cases hbd : (backupDetect (mapFind bacc.history obj.key) obj).1 = true
      · rw [backupProcessObj_failure localFolder pfx env cycleNum bacc obj hbd hbak.1]
      · rw [backupProcessObj_skip localFolder pfx env cycleNum bacc obj (by simpa using hbd)]
    · intro hd
      rw [monitorProcessObj_failure localFolder pfx env acc obj hd hmon.1]
      dsimp only
      rw [hmon.2.2]
      rfl

/-- Witness for C2 at a key whose three download attempts all raise: the
monitor mapping and the backup history stay empty and the monitor failure
log records the surfaced last error. -/
theorem c2_commit_integrity_witness :
    (monitorProcessObj "mirror" "" c2wEnv c2wAcc c2wObj).last = [] ∧
    (backupProcessObj "mirror" "" c2wEnv 1 c2wBacc c2wObj).history = [] ∧
    (monitorProcessObj "mirror" "" c2wEnv c2wAcc c2wObj).failLog = [("k.txt", "boom")] := by
  have h := (c2_commit_integrity "mirror" "" c2wEnv 1 c2wAcc c2wBacc c2wObj).2
    (by intro i _; rfl)
  refine ⟨h.1, h.2.2.1, ?_⟩
  have hl := h.2.2.2 (by rfl)
  exact hl

/-! ## Claim C6 -/
/-- C6: the retry loop makes between 1 and 3 attempts; its sleeps are
exactly the exponential sequence (the delay performed before attempt j + 2
is 2 ^ j, so 1 before the second attempt and 2 before the third); when every
attempt fails, the loop surfaces the error of the last attempt; and a cycle
without a listing error examines every listed object, so per-object failures
never abort the pass. -/
theorem c6_retry_policy (outF : Nat → AttemptOutcome) (expected : Nat) (path : String)
    (fs : Fs) (bucket localFolder pfx : String) (st : MonitorState) (env : CycleEnv) :
    1 ≤ (retryRun outF expected path fs).2.attemptsMade ∧
    (retryRun outF expected path fs).2.attemptsMade ≤ 3 ∧
    (retryRun outF expected path fs).2.delays =
      powDelays 0 ((retryRun outF expected path fs).2.attemptsMade - 1) ∧
    (∀ j, j < (retryRun outF expected path fs).2.delays.length →
      (retryRun outF expected path fs).2.delays.getD j 0 = 2 ^ j) ∧
    powDelays 0 2 = [1, 2] ∧
    ((∀ i, i < 3 → attemptFails (outF i) expected = true) →
      (retryRun outF expected path fs).2.success = none ∧
      (retryRun outF expected path fs).2.attemptsMade = 3 ∧
      (retryRun outF expected path fs).2.lastError = some (attemptErrMsg (outF 2))) ∧
    ((monitorCycle bucket localFolder pfx st env).cycleError = none →
      (monitorCycle bucket localFolder pfx st env).checked =
        (listedObjs env.pages).length) := by
  obtain ⟨h1, h2⟩ := retryRun_attempts outF expected path fs
  refine ⟨h1, h2, retryRun_delays outF expected path fs, ?_, rfl, ?_, ?_⟩
  · intro j hj
    rw [retryRun_delays outF expected path fs] at hj ⊢
    have := powDelays_getD 0 ((retryRun outF expected path fs).2.attemptsMade - 1) j hj
    simpa using this
  · intro hall
    exact retryRun_all_fail outF expected path fs hall
  · intro hcy
    rw [monitorCycle_cycleError] at hcy
    rw [monitorCycle_checked, runPages_fst, foldl_mon_checked]
    simp

/-- Witness for C6 at a key whose three attempts each write a file of the
wrong size: three attempts are made, the two backoff sleeps are 1 and 2,
the surfaced error is the integrity failure, and the cycle still examines
its one listed object. -/
theorem c6_retry_policy_witness :
    (retryRun c6wOut 5 "p" []).2.attemptsMade = 3 ∧
    (retryRun c6wOut 5 "p" []).2.delays = [1, 2] ∧
    (retryRun c6wOut 5 "p" []).2.success = none ∧
    (retryRun c6wOut 5 "p" []).2.lastError =
      some "File integrity check failed" ∧
    (monitorCycle "bucket" "mirror" "" c6wSt c6wEnv).checked = 1 := by
  have h := c6_retry_policy c6wOut 5 "p" []
    "bucket" "mirror" "" c6wSt c6wEnv
  have hall := h.2.2.2.2.2.1 (by intro i _; rfl)
  have hcy := h.2.2.2.2.2.2 (by rfl)
  exact ⟨hall.2.1, by rfl, hall.1, hall.2.2, hcy⟩

/-- C7: for a key that needs backup and whose destination file exists, a
successful versioning step moves (not copies) the file into `.versions`
under the name `basename_stamp` before the download, a failed move is
logged and the download try block is entered regardless; and in the concrete
two-run scenario where the object changes between runs, the second run
leaves exactly one archived copy, named distinctly from the live file, with
the pre-second-run content. -/
theorem c7_versioning (localFolder pfx : String) (env : CycleEnv) (cycleNum : Nat)
    (acc : BackupAcc) (obj : RemoteObj) (c : String)
    (hneed : (backupDetect (mapFind acc.history obj.key) obj).1 = true)
    (hex : fsFind acc.fs (joinPath localFolder (relPathOf pfx obj.key)) = some c)
    (hne : joinPath localFolder (relPathOf pfx obj.key) ≠
      joinPath (joinPath localFolder ".versions")
        (baseName (relPathOf pfx obj.key) ++ "_" ++ env.stamp)) :
    (env.renameFails obj.key = false →
      (backupVersionStep localFolder pfx env acc obj).archived =
        some (joinPath (joinPath localFolder ".versions")
          (baseName (relPathOf pfx obj.key) ++ "_" ++ env.stamp)) ∧
      fsFind (backupVersionStep localFolder pfx env acc obj).fs
        (joinPath localFolder (relPathOf pfx obj.key)) = none ∧
      fsFind (backupVersionStep localFolder pfx env acc obj).fs
        (joinPath (joinPath localFolder ".versions")
          (baseName (relPathOf pfx obj.key) ++ "_" ++ env.stamp)) = some c) ∧
    (env.renameFails obj.key = true →
      (backupProcessObj localFolder pfx env cycleNum acc obj).versionFailLog =
        relPathOf pfx obj.key :: acc.versionFailLog) ∧
    (backupProcessObj localFolder pfx env cycleNum acc obj).downloadsAttempted =
      acc.downloadsAttempted + 1 ∧
    ((backupCycle "bucket" "bk" "" c7St0 c7Env1).versioned = [] ∧
      c7Run2.versioned = ["bk/.versions/f.txt_20240102_000002"] ∧
      versionsCount "bk" c7Run2.state.fs = 1 ∧
      fsFind c7Run2.state.fs "bk/.versions/f.txt_20240102_000002" = some "v1" ∧
      fsFind c7Run2.state.fs "bk/f.txt" = some "v2" ∧
      ("bk/.versions/f.txt_20240102_000002" : String) ≠ "bk/f.txt") := by
  refine ⟨?_, ?_, backupProcessObj_attempted localFolder pfx env cycleNum acc obj hneed,
    by decide⟩
  · intro hrf
    have hm := versionExisting_moves localFolder (relPathOf pfx obj.key)
      (joinPath localFolder (relPathOf pfx obj.key)) env.stamp acc.fs c hex hne
    unfold backupVersionStep
    rw [hrf]
    exact ⟨hm.1, hm.2.2.1, hm.2.2.2⟩
  · intro hrf
    have hmf : (backupVersionStep localFolder pfx env acc obj).moveFailed = true := by
      unfold backupVersionStep
      rw [hrf, versionExisting_fail localFolder (relPathOf pfx obj.key)
        (joinPath localFolder (relPathOf pfx obj.key)) env.stamp acc.fs c hex]
    cases hs : (backupRetry localFolder pfx env acc obj).2.success with
    | some c' =>
      rw [backupProcessObj_success localFolder pfx env cycleNum acc obj c' hneed hs]
      dsimp only
      rw [hmf]
      simp
    | none =>
      rw [backupProcessObj_failure localFolder pfx env cycleNum acc obj hneed hs]
      dsimp only
      rw [hmf]
      simp

/-- Witness for C7: with an existing destination file, a succeeding rename
archives it under the stamped name and removes the original, a failing
rename is logged, and the download is attempted either way. -/
theorem c7_versioning_witness :
    (backupVersionStep "bk" "" c7Env2 c7wAcc c7Obj2).archived =
      some (joinPath (joinPath "bk" ".versions")
        (baseName (relPathOf "" c7Obj2.key) ++ "_" ++ c7Env2.stamp)) ∧
    fsFind (backupVersionStep "bk" "" c7Env2 c7wAcc c7Obj2).fs
      (joinPath "bk" (relPathOf "" c7Obj2.key)) = none ∧
    (backupProcessObj "bk" "" c7wEnvFail 2 c7wAcc c7Obj2).versionFailLog =
      [relPathOf "" c7Obj2.key] ∧
    (backupProcessObj "bk" "" c7Env2 2 c7wAcc c7Obj2).downloadsAttempted = 1 := by
  have h := c7_versioning "bk" "" c7Env2 2 c7wAcc c7Obj2 "v1" (by rfl) (by rfl) (by decide)
  have hf := c7_versioning "bk" "" c7wEnvFail 2 c7wAcc c7Obj2 "v1" (by rfl) (by rfl) (by decide)
  have h1 := h.1 (by rfl)
  have h2 := hf.2.1 (by rfl)
  exact ⟨h1.1, h1.2.1, h2, h.2.2.1⟩

/-! ## Claim C9 -/
theorem backupProcessObj_establishes (localFolder pfx : String) (env : CycleEnv)
    (cycleNum : Nat) (acc : BackupAcc) (obj : RemoteObj)
    (hdl : ∃ c, env.outcomes obj.key 0 = AttemptOutcome.writes obj.size c) :
    (backupDetect
      (mapFind (backupProcessObj localFolder pfx env cycleNum acc obj).history obj.key)
      obj).1 = false := by
  obtain ⟨c, hc⟩ := hdl
  by_cases hd : (backupDetect (mapFind acc.history obj.key) obj).1 = true
  · have hs : (backupRetry localFolder pfx env acc obj).2.success = some c := by
      unfold backupRetry
      exact retryRun_first_success (env.outcomes obj.key) obj.size _ _ c hc
    rw [backupProcessObj_success localFolder pfx env cycleNum acc obj c hd hs]
    dsimp only
    rw [mapFind_insert_self]
    simp [backupDetect]
  · rw [backupProcessObj_skip localFolder pfx env cycleNum acc obj (by simpa using hd)]
    dsimp only
    simpa using hd

theorem foldl_backup_find_ne (localFolder pfx : String) (env : CycleEnv) (cycleNum : Nat) :
    ∀ objs (acc : BackupAcc) (k : String), (∀ o ∈ objs, k ≠ o.key) →
      mapFind (List.foldl (backupProcessObj localFolder pfx env cycleNum) acc objs).history
        k = mapFind acc.history k := by
  intro objs
  induction objs with
  | nil => intro acc k _; simp
  | cons o os ih =>
    intro acc k hk
    simp only [List.foldl_cons]
    rw [ih _ k (fun o' ho' => hk o' (List.mem_cons_of_mem o ho'))]
    exact backupProcessObj_history_find_ne localFolder pfx env cycleNum acc o k
      (hk o (List.mem_cons_self o os))

theorem foldl_backup_all_unchanged (localFolder pfx : String) (env : CycleEnv)
    (cycleNum : Nat) :
    ∀ objs (acc : BackupAcc),
      (∀ o ∈ objs, (backupDetect (mapFind acc.history o.key) o).1 = false) →
      (List.foldl (backupProcessObj localFolder pfx env cycleNum) acc objs).history =
        acc.history ∧
      (List.foldl (backupProcessObj localFolder pfx env cycleNum) acc objs).backedUp =
        acc.backedUp := by
  intro objs
  induction objs with
  | nil => intro acc _; exact ⟨rfl, rfl⟩
  | cons o os ih =>
    intro acc hall
    simp only [List.foldl_cons]
    rw [backupProcessObj_skip localFolder pfx env cycleNum acc o
      (hall o (List.mem_cons_self o os))]
    exact ih _ (fun o' ho' => hall o' (List.mem_cons_of_mem o ho'))

theorem foldl_backup_establishes (localFolder pfx : String) (env : CycleEnv)
    (cycleNum : Nat) :
    ∀ objs (acc : BackupAcc),
      (∀ o ∈ objs, ∃ c, env.outcomes o.key 0 = AttemptOutcome.writes o.size c) →
      (objs.map RemoteObj.key).Nodup →
      ∀ o ∈ objs,
        (backupDetect
          (mapFind
            (List.foldl (backupProcessObj localFolder pfx env cycleNum) acc objs).history
            o.key)
          o).1 = false := by
  intro objs
  induction objs with
  | nil => intro acc _ _ o ho; simp at ho
  | cons o os ih =>
    intro acc hdl hnd o' ho'
    simp only [List.map_cons, List.nodup_cons] at hnd
    rcases List.mem_cons.mp ho' with he | ht
    · subst he
      simp only [List.foldl_cons]
      rw [foldl_backup_find_ne localFolder pfx env cycleNum os _ o'.key
        (fun ob hob hkey => hnd.1 (hkey ▸ List.mem_map_of_mem RemoteObj.key hob))]
      exact backupProcessObj_establishes localFolder pfx env cycleNum acc o'
        (hdl o' (List.mem_cons_self o' os))
    · simp only [List.foldl_cons]
      exact ih _ (fun ob hob => hdl ob (List.mem_cons_of_mem o hob)) hnd.2 o' ht

theorem backupCycle_backedUp (bucket localFolder pfx : String) (st : BackupState)
    (env : CycleEnv) :
    (backupCycle bucket localFolder pfx st env).backedUp =
      (runPages (backupProcessObj localFolder pfx env (st.backupCount + 1))
        (⟨st.fs, st.history, 0, 0, 0, 0, [], [], []⟩ : BackupAcc) env.pages).1.backedUp := by
  simp only [backupCycle]
  cases hrun : (runPages (backupProcessObj localFolder pfx env (st.backupCount + 1))
      (⟨st.fs, st.history, 0, 0, 0, 0, [], [], []⟩ : BackupAcc) env.pages).2 with
  | none => rfl
  | some e =>
    by_cases h3 : 3 ≤ (runPages (backupProcessObj localFolder pfx env (st.backupCount + 1))
        (⟨st.fs, st.history, 0, 0, 0, 0, [], [], []⟩ : BackupAcc) env.pages).1.perObjErrors + 1 <;>
      simp [h3]

theorem backupCycle_cycleError (bucket localFolder pfx : String) (st : BackupState)
    (env : CycleEnv) :
    (backupCycle bucket localFolder pfx st env).cycleError =
      (runPages (backupProcessObj localFolder pfx env (st.backupCount + 1))
        (⟨st.fs, st.history, 0, 0, 0, 0, [], [], []⟩ : BackupAcc) env.pages).2 := by
  simp only [backupCycle]
  cases hrun : (runPages (backupProcessObj localFolder pfx env (st.backupCount + 1))
      (⟨st.fs, st.history, 0, 0, 0, 0, [], [], []⟩ : BackupAcc) env.pages).2 with
  | none => rfl
  | some e =>
    by_cases h3 : 3 ≤ (runPages (backupProcessObj localFolder pfx env (st.backupCount + 1))
        (⟨st.fs, st.history, 0, 0, 0, 0, [], [], []⟩ : BackupAcc) env.pages).1.perObjErrors + 1 <;>
      simp [h3]

/-- C9: over an error-free listing whose keys are distinct, if every changed
object's first download attempt in the first cycle writes the correct size,
then in both modes a second cycle over the same listing with no remote
changes downloads nothing, leaves the fingerprint mapping exactly as the
first cycle left it, and completes without a cycle error: the monitor's
second cycle has zero downloads and an unchanged `last` mapping, and the
backup's second cycle backs up zero files and leaves `backup_history`
unchanged. -/
theorem c9_idempotent (bucket localFolder pfx : String) (st : MonitorState)
    (bst : BackupState) (env : CycleEnv)
    (hok : noPageError env.pages = true)
    (hnd : ((listedObjs env.pages).map RemoteObj.key).Nodup)
    (hdl : ∀ o ∈ listedObjs env.pages,
      ∃ c, env.outcomes o.key 0 = AttemptOutcome.writes o.size c) :
    (monitorCycle bucket localFolder pfx
        (monitorCycle bucket localFolder pfx st env).state env).downloaded = 0 ∧
    (monitorCycle bucket localFolder pfx
        (monitorCycle bucket localFolder pfx st env).state env).state.last =
      (monitorCycle bucket localFolder pfx st env).state.last ∧
    (monitorCycle bucket localFolder pfx
        (monitorCycle bucket localFolder pfx st env).state env).cycleError = none ∧
    (backupCycle bucket localFolder pfx
        (backupCycle bucket localFolder pfx bst env).state env).backedUp = 0 ∧
    (backupCycle bucket localFolder pfx
        (backupCycle bucket localFolder pfx bst env).state env).state.history =
      (backupCycle bucket localFolder pfx bst env).state.history ∧
    (backupCycle bucket localFolder pfx
        (backupCycle bucket localFolder pfx bst env).state env).cycleError = none := by
  have hlast1 : (monitorCycle bucket localFolder pfx st env).state.last =
      (List.foldl (monitorProcessObj localFolder pfx env)
        (⟨st.fs, st.last, 0, 0, 0, []⟩ : MonAcc) (listedObjs env.pages)).last := by
    rw [monitorCycle_last, runPages_fst]
  have hmatch : ∀ o ∈ listedObjs env.pages,
      (monitorDetect
        (mapFind (monitorCycle bucket localFolder pfx st env).state.last o.key) o).1 =
        false := by
    intro o ho
    rw [hlast1]
    exact foldl_mon_establishes localFolder pfx env (listedObjs env.pages) _ hdl hnd o ho
  have hfold2 := foldl_mon_all_unchanged localFolder pfx env (listedObjs env.pages)
    (⟨(monitorCycle bucket localFolder pfx st env).state.fs,
      (monitorCycle bucket localFolder pfx st env).state.last, 0, 0, 0, []⟩ : MonAcc)
    (fun o ho => hmatch o ho)
  have hbhist1 : (backupCycle bucket localFolder pfx bst env).state.history =
      (List.foldl (backupProcessObj localFolder pfx env (bst.backupCount + 1))
        (⟨bst.fs, bst.history, 0, 0, 0, 0, [], [], []⟩ : BackupAcc)
        (listedObjs env.pages)).history := by
    rw [backupCycle_history, runPages_fst]
  have hbmatch : ∀ o ∈ listedObjs env.pages,
      (backupDetect
        (mapFind (backupCycle bucket localFolder pfx bst env).state.history o.key) o).1 =
        false := by
    intro o ho
    rw [hbhist1]
    exact foldl_backup_establishes localFolder pfx env (bst.backupCount + 1)
      (listedObjs env.pages) _ hdl hnd o ho
  have hbfold2 := foldl_backup_all_unchanged localFolder pfx env
    ((backupCycle bucket localFolder pfx bst env).state.backupCount + 1)
    (listedObjs env.pages)
    (⟨(backupCycle bucket localFolder pfx bst env).state.fs,
      (backupCycle bucket localFolder pfx bst env).state.history,
      0, 0, 0, 0, [], [], []⟩ : BackupAcc)
    (fun o ho => hbmatch o ho)
  refine ⟨?_, ?_, ?_, ?_, ?_, ?_⟩
  · rw [monitorCycle_downloaded, runPages_fst, hfold2.2]
  · rw [monitorCycle_last, runPages_fst, hfold2.1]
  · rw [monitorCycle_cycleError]
    exact runPages_none _ env.pages _ hok
  · rw [backupCycle_backedUp, runPages_fst, hbfold2.2]
  · rw [backupCycle_history, runPages_fst, hbfold2.1]
  · rw [backupCycle_cycleError]
    exact runPages_none _ env.pages _ hok

/-- Witness for C9: one object, fetched in cycle one of each mode; cycle two
over the same listing downloads and backs up nothing and leaves both
mappings untouched. -/
theorem c9_idempotent_witness :
    (monitorCycle "bucket" "mirror" ""
        (monitorCycle "bucket" "mirror" "" c9wSt c9wEnv).state c9wEnv).downloaded = 0 ∧
    (monitorCycle "bucket" "mirror" ""
        (monitorCycle "bucket" "mirror" "" c9wSt c9wEnv).state c9wEnv).state.last =
      (monitorCycle "bucket" "mirror" "" c9wSt c9wEnv).state.last ∧
    (backupCycle "bucket" "mirror" ""
        (backupCycle "bucket" "mirror" "" c9wBst c9wEnv).state c9wEnv).backedUp = 0 ∧
    (backupCycle "bucket" "mirror" ""
        (backupCycle "bucket" "mirror" "" c9wBst c9wEnv).state c9wEnv).state.history =
      (backupCycle "bucket" "mirror" "" c9wBst c9wEnv).state.history := by
  have h := c9_idempotent "bucket" "mirror" "" c9wSt c9wBst c9wEnv (by rfl) (by decide)
    (by
      intro o ho
      simp [listedObjs, c9wEnv] at ho
      subst ho
      exact ⟨"abc", rfl⟩)
  exact ⟨h.1, h.2.1, h.2.2.2.1, h.2.2.2.2.1⟩

/-! ## Claim C10 -/
theorem stringLength_append (s t : String) : (s ++ t).length = s.length + t.length := by
  show (s ++ t).data.length = s.data.length + t.data.length
  rw [String.data_append, List.length_append]

theorem joinPath_length (a b : String) : (joinPath a b).length = a.length + 1 + b.length := by
  unfold joinPath
  rw [stringLength_append, stringLength_append]
  rfl

/-- C10: neither cycle ever removes a key from its metadata mapping — every
key present before the cycle is still present after it, whether or not the
remote listing still contains it — and the backup cycle changes no file
except at the destination path of a listed key or inside the `.versions`
archive (the versioning move and the download are the only writes), while
the monitor cycle changes no file outside the destination paths of listed
keys. -/
theorem c10_no_deletion (bucket localFolder pfx : String) (mst : MonitorState)
    (bst : BackupState) (env benv : CycleEnv) :
    (∀ k, (mapFind mst.last k).isSome = true →
      (mapFind (monitorCycle bucket localFolder pfx mst env).state.last k).isSome = true) ∧
    (∀ k, (mapFind bst.history k).isSome = true →
      (mapFind (backupCycle bucket localFolder pfx bst benv).state.history k).isSome =
        true) ∧
    (∀ p, ¬ touchedPath localFolder pfx (listedObjs benv.pages) p →
      fsFind (backupCycle bucket localFolder pfx bst benv).state.fs p = fsFind bst.fs p) ∧
    (∀ p, (∀ o ∈ listedObjs env.pages, p ≠ localPathOf localFolder pfx o.key) →
      fsFind (monitorCycle bucket localFolder pfx mst env).state.fs p = fsFind mst.fs p) := by
  refine ⟨?_, ?_, ?_, ?_⟩
  · intro k hk
    rw [monitorCycle_last, runPages_fst]
    exact foldl_mon_keys localFolder pfx env (listedObjs env.pages) _ k hk
  · intro k hk
    rw [backupCycle_history, runPages_fst]
    exact foldl_backup_keys localFolder pfx benv (bst.backupCount + 1)
      (listedObjs benv.pages) _ k hk
  · intro p hp
    unfold touchedPath at hp
    push_neg at hp
    rw [backupCycle_fs, runPages_fst]
    exact foldl_backup_fs_frame localFolder pfx benv (bst.backupCount + 1)
      (listedObjs benv.pages) _ p (fun o ho => hp.1 o ho) hp.2
  · intro p hp
    rw [monitorCycle_fs, runPages_fst]
    exact foldl_mon_fs_frame localFolder pfx env (listedObjs env.pages) _ p hp

/-- Witness for C10: a key that has disappeared from the listing survives
the cycle in both mappings, and a bystander file is untouched by both
cycles. -/
theorem c10_no_deletion_witness :
    (mapFind (monitorCycle "bucket" "mirror" "" c10wMst c10wEnv).state.last
      "gone.txt").isSome = true ∧
    (mapFind (backupCycle "bucket" "mirror" "" c10wBst c10wEnv).state.history
      "gone.txt").isSome = true ∧
    fsFind (backupCycle "bucket" "mirror" "" c10wBst c10wEnv).state.fs "mirror/old.txt" =
      some "keep" ∧
    fsFind (monitorCycle "bucket" "mirror" "" c10wMst c10wEnv).state.fs "mirror/old.txt" =
      some "keep" := by
  have h := c10_no_deletion "bucket" "mirror" "" c10wMst c10wBst c10wEnv c10wEnv
  have hback := h.2.2.1 "mirror/old.txt" (by
    intro htp
    rcases htp with ⟨o, ho, hpe⟩ | ⟨name, hpe⟩
    · simp [listedObjs, c10wEnv] at ho
      subst ho
      exact absurd hpe (by decide)
    · have h1 := congrArg String.length hpe
      rw [joinPath_length, joinPath_length] at h1
      rw [show ("mirror/old.txt" : String).length = 14 from by decide,
        show ("mirror" : String).length = 6 from by decide,
        show (".versions" : String).length = 9 from by decide] at h1
      omega)
  have hmon := h.2.2.2 "mirror/old.txt" (by
    intro o ho
    simp [listedObjs, c10wEnv] at ho
    subst ho
    decide)
  refine ⟨h.1 "gone.txt" (by rfl), h.2.1 "gone.txt" (by rfl), ?_, ?_⟩
  · rw [hback]
    decide
  · rw [hmon]
    decide

/-- Witness for C1 at concrete entries: a legacy entry with a differing
timestamp classifies as Modified, and both detectors flag a missing entry as
changed. -/
theorem c1_change_classification_witness :
    specClassify (some (StoredInfo.legacy (PyTime.dt "t2")))
      ⟨"a.txt", PyTime.dt "t1", 3, "e1"⟩ = Classification.Modified ∧
    (monitorDetect none ⟨"a.txt", PyTime.dt "t1", 3, "e1"⟩).1 = true ∧
    (backupDetect none ⟨"a.txt", PyTime.dt "t1", 3, "e1"⟩).1 = true := by
  have h := c1_change_classification (some (StoredInfo.legacy (PyTime.dt "t2")))
    ⟨"a.txt", PyTime.dt "t1", 3, "e1"⟩
  refine ⟨(h.2.2.2.1 (PyTime.dt "t2") rfl).mpr (by decide), by decide, by decide⟩

end AwsSync

